import Mathlib

/-!
Shallow embedding of the go-spring IoC container core
(`spring/spring-core/gs/gs.go`).

Conventions of the embedding:
* Go `reflect.Type` values are represented by the inductive `Gs.Ty`;
  interfaces carry their method-name set and concrete types carry the
  method-name set of their method receivers, so `Implements` is the Go
  subset test.  Type identity is the structural equality `Ty.beq`.
* Go maps are association lists; map iteration takes the list order
  (an admissible instance of Go's unspecified map order).
* Beans are heap objects mutated through pointers in Go; here the heap
  is the `beans` list of the container and a "pointer" is the index
  (`Nat`) of the bean in that list.  The lookup indices store indices.
* Go panics and returned errors are both represented by the
  `Option String` (or `Except String`) error component of a result;
  `none` means normal return.
* Code of the repository that is not part of the given source
  (the bean-descriptor type, the condition evaluator, the injection
  mechanism, the property store, the ordering service) is modelled
  from the spec; every such definition says so in its doc comment.
-/

namespace Gs

mutual

/-- Go `reflect.Type` values, as far as the container inspects them:
interface types with their method sets, struct types with their method
sets and their fields (tag information included), pointer types, and
any other kind. -/
inductive Ty where
  | iface (name : String) (methods : List String)
  | strukt (name : String) (methods : List String) (fields : List StructField)
  | ptr (elem : Ty)
  | base (name : String) (methods : List String)

/-- One struct field, keeping exactly what `autoExport` reads from
`reflect.StructField`: anonymity, presence of the `export`, `inject`
and `autowire` tags, and the field type. -/
inductive StructField where
  | mk (anonymous hasExport hasInject hasAutowire : Bool) (typ : Ty)

end

end Gs

mutual

/-- Structural equality of types; plays the role of Go type identity. -/
def Gs.Ty.beq : Gs.Ty → Gs.Ty → Bool
  | .iface n ms, .iface n2 ms2 => n == n2 && ms == ms2
  | .strukt n ms fs, .strukt n2 ms2 fs2 => n == n2 && ms == ms2 && Gs.fieldListBeq fs fs2
  | .ptr e, .ptr e2 => Gs.Ty.beq e e2
  | .base n ms, .base n2 ms2 => n == n2 && ms == ms2
  | _, _ => false

/-- Structural equality of struct fields. -/
def Gs.StructField.beq : Gs.StructField → Gs.StructField → Bool
  | .mk a e i w t, .mk a2 e2 i2 w2 t2 =>
      a == a2 && e == e2 && i == i2 && w == w2 && Gs.Ty.beq t t2

/-- Structural equality of field lists. -/
def Gs.fieldListBeq : List Gs.StructField → List Gs.StructField → Bool
  | [], [] => true
  | f :: fs, g :: gs => Gs.StructField.beq f g && Gs.fieldListBeq fs gs
  | _, _ => false

end

namespace Gs

mutual

theorem tyBeq_refl : ∀ t : Ty, Ty.beq t t = true
  | .iface _ _ => by simp [Ty.beq]
  | .strukt _ _ fs => by simp [Ty.beq, fieldListBeq_refl fs]
  | .ptr e => by simpa [Ty.beq] using tyBeq_refl e
  | .base _ _ => by simp [Ty.beq]

theorem fieldBeq_refl : ∀ f : StructField, StructField.beq f f = true
  | .mk _ _ _ _ t => by simp [StructField.beq, tyBeq_refl t]

theorem fieldListBeq_refl : ∀ fs : List StructField, fieldListBeq fs fs = true
  | [] => by simp [fieldListBeq]
  | f :: fs => by simp [fieldListBeq, fieldBeq_refl f, fieldListBeq_refl fs]

end

/-- `util.Indirect`: strip one level of pointer. -/
def indirect : Ty → Ty
  | .ptr e => e
  | t => t

/-- The method set of a type; a pointer type sees the methods of its
element (the reflection detail of value vs pointer receivers is outside
the container's code). -/
def Ty.methodSet : Ty → List String
  | .iface _ ms => ms
  | .strukt _ ms _ => ms
  | .ptr e => e.methodSet
  | .base _ ms => ms

/-- `Kind() == reflect.Interface`. -/
def Ty.isInterface : Ty → Bool
  | .iface _ _ => true
  | _ => false

/-- Rendering of a type, as `reflect.Type.String()` appears in error
messages. -/
def Ty.str : Ty → String
  | .iface n _ => n
  | .strukt n _ _ => n
  | .ptr e => "*" ++ e.str
  | .base n _ => n

/-- `reflect.Type.Implements`: the target is an interface and its
method set is contained in the source type's method set. -/
def Implements (s t : Ty) : Bool :=
  match t with
  | .iface _ ms => ms.all (fun m => s.methodSet.contains m)
  | _ => false

/-- `reflect.Type.AssignableTo`, restricted to how `find` uses it:
assignability to an interface is `Implements`, assignability to a
concrete type is type identity. -/
def AssignableTo (s t : Ty) : Bool :=
  if t.isInterface then Implements s t else Ty.beq s t

/-- Membership of a type in a list of types, under type identity. -/
def tyMem (t : Ty) : List Ty → Bool
  | [] => false
  | u :: us => Ty.beq u t || tyMem t us

/-- Modelled from the spec: `BeanDefinition.Export` (the descriptor
builder is outside the given source) records an interface in the
descriptor's set of exported interface types; the set is represented
as a duplicate-free list in insertion order. -/
def exportAdd (es : List Ty) (t : Ty) : List Ty :=
  if tyMem t es then es else es ++ [t]

theorem sizeOf_indirect_strukt {t : Ty} {n : String} {ms : List String}
    {gs : List StructField} (h : indirect t = Ty.strukt n ms gs) :
    sizeOf gs < sizeOf t := by
  cases t with
  | iface n2 ms2 => simp [indirect] at h
  | strukt n2 ms2 fs2 =>
      simp [indirect] at h
      obtain ⟨_, _, h3⟩ := h
      subst h3
      simp <;> omega
  | ptr e =>
      simp [indirect] at h
      subst h
      simp <;> omega
  | base n2 ms2 => simp [indirect] at h

/-- `Container.autoExport`, the field loop: walk the fields of a struct
type, recording every `export`-tagged interface field in the export
set, recursing through untagged anonymous struct fields, and failing
on an `export` tag that sits on a non-interface field or is combined
with an injection tag.  Go mutates the export set in place, so the
exports accumulated before a failure are kept: the result carries the
final export set together with the error, `none` meaning success. -/
def autoExportFields : List StructField → List Ty → List Ty × Option String
  | [], es => (es, none)
  | StructField.mk anon exp inj auto ft :: fs, es =>
    if !exp then
      -- no export tag: recurse only through untagged anonymous fields
      if !anon || inj || auto then autoExportFields fs es
      else
        match h : indirect ft with
        | Ty.strukt _ _ gs =>
          match autoExportFields gs es with
          | (es2, some e) => (es2, some e)
          | (es2, none) => autoExportFields fs es2
        | _ => autoExportFields fs es
    else if !ft.isInterface then (es, some "export can only use on interface")
    else if exp && (inj || auto) then (es, some "inject or autowire can't use with export")
    else autoExportFields fs (exportAdd es ft)
termination_by fs _ => sizeOf fs
decreasing_by
  all_goals simp
  all_goals try omega
  all_goals have hx := sizeOf_indirect_strukt h
  all_goals omega

/-- Modelled from the spec: the per-bean resolution status (the
descriptor type is outside the given source).  The spec orders the
lifecycle `Default → Resolving → {Resolved | Deleted}`; both terminal
values sit after `Resolving`, so the source's "at or past Resolving"
comparison covers them. -/
inductive beanStatus where
  | Default
  | Resolving
  | Resolved
  | Deleted
deriving DecidableEq, Repr

/-- Numeric rank of a status, used for the ordered comparison in
`resolveBean` and for the monotonicity statement. -/
def beanStatus.rank : beanStatus → Nat
  | .Default => 0
  | .Resolving => 1
  | .Resolved => 2
  | .Deleted => 3

/-- The `>=` comparison the source performs on statuses. -/
def statusGe (a b : beanStatus) : Bool := decide (b.rank ≤ a.rank)

/-- Modelled from the spec: the bean descriptor (outside the given
source).  It carries a unique identity, an optional declared name, a
description used in error messages, the concrete reflected type, an
optional activation condition, the set of exported interface types and
the resolution status.  The condition evaluator is an external black
box `matches(facade) -> bool`; `cond` records its verdict (`none` when
the descriptor has no condition). -/
structure BeanDefinition where
  id : String
  name : String
  description : String
  typ : Ty
  cond : Option Bool
  exports : List Ty
  status : beanStatus

/-- Modelled from the spec: a configuration entry; its function is an
external callable, so only its condition verdict and its execution
outcome are kept. -/
structure Configer where
  cond : Option Bool
  result : Option String

/-- Modelled from the spec: a destroyer entry; its teardown function is
an external callable, so only a name and its execution outcome are
kept (`none` meaning success). -/
structure Destroyer where
  name : String
  result : Option String

/-- The container's coarse state machine. -/
inductive refreshState where
  | Unrefreshed
  | Refreshing
  | Refreshed
deriving DecidableEq, Repr

/-- The container.  Beans are heap objects in Go; here the heap is the
`beans` list and every lookup index stores positions in that list.
`beansById` is the identity index (a map with string keys),
`beansByName` and `beansByType` the multi-valued name and type
indices.  The property store is the external `conf.Properties`,
modelled as a key/value list. -/
structure Container where
  p : List (String × String)
  state : refreshState
  beans : List BeanDefinition
  beansById : List (String × Nat)
  beansByName : List (String × List Nat)
  beansByType : List (Ty × List Nat)
  configers : List Configer
  configerList : List Configer
  destroyerList : List Destroyer

/-- The empty container produced by `New` (pandora registration is not
taken). -/
def newContainer : Container :=
  { p := [], state := .Unrefreshed, beans := [], beansById := [],
    beansByName := [], beansByType := [], configers := [],
    configerList := [], destroyerList := [] }

/-- Replace the element at a position of a list. -/
def listModify (f : α → α) : Nat → List α → List α
  | _, [] => []
  | 0, a :: as => f a :: as
  | n + 1, a :: as => a :: listModify f n as

/-- In-place mutation of the bean a pointer designates. -/
def modifyBean (c : Container) (i : Nat) (f : BeanDefinition → BeanDefinition) : Container :=
  { c with beans := listModify f i c.beans }

/-- `b.status = s` through the pointer. -/
def setStatus (c : Container) (i : Nat) (s : beanStatus) : Container :=
  modifyBean c i (fun b => { b with status := s })

/-- `b.exports = es` through the pointer (the in-place growth performed
by `autoExport`). -/
def setExports (c : Container) (i : Nat) (es : List Ty) : Container :=
  modifyBean c i (fun b => { b with exports := es })

/-- Lookup in the identity index. -/
def idLookup (m : List (String × Nat)) (k : String) : Option Nat :=
  match m with
  | [] => none
  | (k2, v) :: rest => if k2 == k then some v else idLookup rest k

/-- `delete(c.beansById, id)`. -/
def idDelete (m : List (String × Nat)) (k : String) : List (String × Nat) :=
  m.filter (fun kv => !(kv.1 == k))

/-- Append a pointer to the bucket of a name key
(`m[k] = append(m[k], i)`). -/
def nameIndexAppend (m : List (String × List Nat)) (k : String) (i : Nat) :
    List (String × List Nat) :=
  match m with
  | [] => [(k, [i])]
  | (k2, v) :: rest =>
      if k2 == k then (k2, v ++ [i]) :: rest else (k2, v) :: nameIndexAppend rest k i

/-- Append a pointer to the bucket of a type key. -/
def tyIndexAppend (m : List (Ty × List Nat)) (k : Ty) (i : Nat) :
    List (Ty × List Nat) :=
  match m with
  | [] => [(k, [i])]
  | (k2, v) :: rest =>
      if Ty.beq k2 k then (k2, v ++ [i]) :: rest else (k2, v) :: tyIndexAppend rest k i

/-- The bucket of a type key (empty when absent). -/
def tyLookup (m : List (Ty × List Nat)) (k : Ty) : List Nat :=
  match m with
  | [] => []
  | (k2, v) :: rest => if Ty.beq k2 k then v else tyLookup rest k

/-- The bucket of a name key (empty when absent). -/
def nameLookup (m : List (String × List Nat)) (k : String) : List Nat :=
  match m with
  | [] => []
  | (k2, v) :: rest => if k2 == k then v else nameLookup rest k

/-- `callAfterRefreshing`: some methods may only run once `Refresh` has
begun; the violation is a panic, modelled as the error value. -/
def callAfterRefreshing (c : Container) : Option String :=
  if c.state = .Unrefreshed then some "should call after Refreshing" else none

/-- `callBeforeRefreshing`: some methods may no longer run once
`Refresh` has begun. -/
def callBeforeRefreshing (c : Container) : Option String :=
  if c.state ≠ .Unrefreshed then some "should call before Refreshing" else none

/-- `Container.Load`: read a property list from a file.  The file
parser is the external property store; `kvs` stands for the key/value
pairs it would produce. -/
def Load (c : Container) (kvs : List (String × String)) : Container × Option String :=
  match callBeforeRefreshing c with
  | some e => (c, some e)
  | none => ({ c with p := c.p ++ kvs }, none)

/-- `Container.Property`: set one property. -/
def Property (c : Container) (key value : String) : Container × Option String :=
  match callBeforeRefreshing c with
  | some e => (c, some e)
  | none => ({ c with p := (key, value) :: c.p }, none)

/-- `Container.Register`: append a descriptor to the registration
list. -/
def Register (c : Container) (b : BeanDefinition) : Container × Option String :=
  match callBeforeRefreshing c with
  | some e => (c, some e)
  | none => ({ c with beans := c.beans ++ [b] }, none)

/-- `Container.Object`: register an object bean.  `NewBean` (the
external descriptor builder) is represented by the descriptor it would
build from the instance. -/
def Object (c : Container) (b : BeanDefinition) : Container × Option String :=
  match callBeforeRefreshing c with
  | some e => (c, some e)
  | none => Register c b

/-- `Container.Provide`: register a constructor bean; as for `Object`,
the external `NewBean` is represented by the descriptor it would
build. -/
def Provide (c : Container) (b : BeanDefinition) : Container × Option String :=
  match callBeforeRefreshing c with
  | some e => (c, some e)
  | none => Register c b

/-- `Container.Config`: register a configuration function.  The two
reflective signature checks (`util.IsFuncType`,
`util.ReturnNothing`/`util.ReturnOnlyError`) are external; their
verdicts are passed in as the two booleans. -/
def Config (c : Container) (fnIsFunc fnReturnsOk : Bool) (g : Configer) :
    Container × Option String :=
  match callBeforeRefreshing c with
  | some e => (c, some e)
  | none =>
    if !fnIsFunc then (c, some "xxx")
    else if !fnReturnsOk then (c, some "fn should be func() or func()error")
    else ({ c with configers := c.configers ++ [g] }, none)

/-- `Container.registerBeans`, the loop body over a suffix of the
registration list: place each descriptor into the identity index,
panicking on a duplicate identity with both descriptions. -/
def registerBeansAux (c : Container) (i : Nat) :
    List BeanDefinition → Container × Option String
  | [] => (c, none)
  | b :: bs =>
    match idLookup c.beansById b.id with
    | some j =>
        match c.beans.get? j with
        | some d =>
            (c, some ("found duplicate beans [" ++ b.description ++ "] [" ++
              d.description ++ "]"))
        | none => (c, some "found duplicate beans")
    | none =>
        registerBeansAux
          { c with beansById := c.beansById ++ [(b.id, i)] } (i + 1) bs

/-- `Container.registerBeans`: build the identity index from the
registration list. -/
def registerBeans (c : Container) : Container × Option String :=
  registerBeansAux c 0 c.beans

/-- `Container.resolveConfigers`: keep the configuration entries whose
condition holds, then hand the kept list to the external ordering
service (`sort.Triple`); with no ordering hints modelled the stable
sort is the identity on the filtered list. -/
def resolveConfigers (c : Container) : Container :=
  { c with configerList := c.configers.filter (fun g => g.cond ≠ some false) }

/-- `Container.runConfigers`: run the ordered configuration entries,
stopping at the first failure. -/
def runConfigers : List Configer → Option String
  | [] => none
  | g :: gs =>
    match g.result with
    | some e => some e
    | none => runConfigers gs

/-- The export-indexing loop of `resolveBean`: for every exported
interface check that the bean's type implements it and index the bean
under it; an unimplemented export aborts with an error naming the
descriptor and the interface. -/
def exportLoop (c : Container) (b : BeanDefinition) (i : Nat) :
    List Ty → Container × Option String
  | [] => (c, none)
  | t :: ts =>
    if Implements b.typ t then
      exportLoop { c with beansByType := tyIndexAppend c.beansByType t i } b i ts
    else
      (c, some (b.description ++ " not implement " ++ t.str ++ " interface"))

/-- The auto-export step of `resolveBean`: only a struct type (after
stripping one pointer) is walked. -/
def autoExportOf (b : BeanDefinition) : List Ty × Option String :=
  match indirect b.typ with
  | Ty.strukt _ _ fs => autoExportFields fs b.exports
  | _ => (b.exports, none)

/-- `Container.resolveBean`: decide whether the pointed-to bean may
exist.  A bean at or past `Resolving` is left untouched; a failing
condition removes the bean from the identity index and marks it
`Deleted`; otherwise the bean is indexed under its concrete type, its
auto-exports are collected (struct types only), every export is
verified and indexed, the bean is indexed under its name and marked
`Resolved`. -/
def resolveBean (c : Container) (i : Nat) : Container × Option String :=
  match c.beans.get? i with
  | none => (c, none)
  | some b =>
    if statusGe b.status .Resolving then (c, none)
    else
      let c1 := setStatus c i .Resolving
      match b.cond with
      | some false =>
          (setStatus { c1 with beansById := idDelete c1.beansById b.id } i .Deleted,
           none)
      | _ =>
        let c2 := { c1 with beansByType := tyIndexAppend c1.beansByType b.typ i }
        let ae := autoExportOf b
        let c3 := setExports c2 i ae.1
        match ae.2 with
        | some e => (c3, some e)
        | none =>
          match exportLoop c3 b i ae.1 with
          | (c4, some e) => (c4, some e)
          | (c4, none) =>
              (setStatus
                { c4 with beansByName := nameIndexAppend c4.beansByName b.name i }
                i .Resolved, none)

/-- `Container.resolveBeans`, the loop over (a snapshot of) the
identity index. -/
def resolveBeansAux (c : Container) : List (String × Nat) → Container × Option String
  | [] => (c, none)
  | (_, i) :: rest =>
    match resolveBean c i with
    | (c2, some e) => (c2, some e)
    | (c2, none) => resolveBeansAux c2 rest

/-- `Container.resolveBeans`: resolve every registered bean. -/
def resolveBeans (c : Container) : Container × Option String :=
  resolveBeansAux c c.beansById

/-- A bean selector: either a parsed `typeName:beanName` tag string or
a reflected type. -/
inductive Selector where
  | tag (typeName beanName : String)
  | ofType (t : Ty)

/-- Modelled from the spec: `BeanDefinition.Match` (outside the given
source) matches a descriptor against a name/type selector, an empty
component matching everything. -/
def Match (b : BeanDefinition) (typeName beanName : String) : Bool :=
  (typeName == "" || b.typ.str == typeName) &&
  (beanName == "" || b.name == beanName)

/-- The `finder` closure of `Container.find`: walk (a snapshot of) the
identity index; every matching bean not currently being resolved is
resolved on demand and, when it survived, appended to the result. -/
def findAux (fn : BeanDefinition → Bool) (c : Container) :
    List (String × Nat) → Container × Except String (List Nat)
  | [] => (c, .ok [])
  | (_, i) :: rest =>
    match c.beans.get? i with
    | none => findAux fn c rest
    | some b =>
      if !(b.status == .Resolving) && fn b then
        match resolveBean c i with
        | (c2, some e) => (c2, .error e)
        | (c2, none) =>
          let keep : Bool :=
            match c2.beans.get? i with
            | some b2 => !(b2.status == .Deleted)
            | none => false
          match findAux fn c2 rest with
          | (c3, .error e) => (c3, .error e)
          | (c3, .ok res) => (c3, .ok (if keep then i :: res else res))
      else findAux fn c rest

/-- `Container.find`: beans matching a selector.  A tag selector uses
name/type matching; a type selector first replaces a pointer to an
interface by the interface, then requires assignability, and for an
interface target additionally membership in the bean's export set. -/
def find (c : Container) (sel : Selector) : Container × Except String (List Nat) :=
  match callAfterRefreshing c with
  | some e => (c, .error e)
  | none =>
    match sel with
    | .tag tn bn => findAux (fun b => Match b tn bn) c c.beansById
    | .ofType t0 =>
      let t :=
        match t0 with
        | .ptr e => if e.isInterface then e else t0
        | _ => t0
      findAux
        (fun b =>
          if !AssignableTo b.typ t then false
          else if !t.isInterface then true
          else tyMem t b.exports)
        c c.beansById

/-- `Container.wireBeans` hands every bean in the identity index to the
external injection mechanism (`assembly.wireBean`); the model records
the sequence of descriptors passed to it. -/
def wireBeans (c : Container) : List Nat :=
  c.beansById.map Prod.snd

/-- `Container.Refresh`: the one-shot pipeline.  Registration, configer
resolution, bean resolution and configer execution are taken from the
source; the wiring pass and the destroyer collection are external (see
`wireBeans`), so `destroyerList` stands for the list the external
assembly produced.  Both panics and returned startup errors appear as
the error component. -/
def Refresh (c : Container) : Container × Option String :=
  if c.state ≠ .Unrefreshed then (c, some "already refreshed")
  else
    let c0 := { c with state := .Refreshing }
    match registerBeans c0 with
    | (c1, some e) => (c1, some e)
    | (c1, none) =>
      let c2 := resolveConfigers c1
      match resolveBeans c2 with
      | (c3, some e) => (c3, some e)
      | (c3, none) =>
        match runConfigers c3.configerList with
        | some e => (c3, some e)
        | none => ({ c3 with state := .Refreshed }, none)

/-- `Container.runDestroyers`: run every destroyer in list order; a
failure is logged and the loop continues.  The result is the sequence
of destroyers actually run together with the log. -/
def runDestroyers : List Destroyer → List Destroyer × List String
  | [] => ([], [])
  | d :: ds =>
    let logged := match d.result with | some e => [e] | none => []
    let r := runDestroyers ds
    (d :: r.1, logged ++ r.2)

/-- Observable effects of `Container.Close`, modelled from the spec:
cancelling the shared context, the blocking wait on the task
wait-group, the run of one destroyer, one logged teardown failure. -/
inductive Event where
  | cancelContext
  | waitAllTasks
  | ranDestroyer (name : String)
  | loggedError (msg : String)
deriving DecidableEq, Repr

/-- The event trace of the destroyer loop. -/
def destroyerEvents : List Destroyer → List Event
  | [] => []
  | d :: ds =>
    Event.ranDestroyer d.name ::
      ((match d.result with
        | some e => [Event.loggedError e]
        | none => []) ++ destroyerEvents ds)

/-- `Container.Close`: guarded by `callAfterRefreshing`; the effects
(`cancel()`, `wg.Wait()`, `runDestroyers`) are external concurrency,
modelled from the spec as the ordered trace of events the method
produces. -/
def Close (c : Container) : Except String (List Event) :=
  match callAfterRefreshing c with
  | some e => .error e
  | none =>
      .ok (Event.cancelContext :: Event.waitAllTasks ::
        destroyerEvents c.destroyerList)

/-! ### Helper lemmas about the heap and the indices -/

theorem listModify_get_self (f : α → α) (l : List α) :
    ∀ i, (listModify f i l).get? i = (l.get? i).map f := by
  induction l with
  | nil => intro i; cases i <;> simp [listModify]
  | cons a as ih =>
      intro i
      cases i with
      | zero => simp [listModify]
      | succ n => simpa [listModify] using ih n

theorem listModify_get_ne (f : α → α) (l : List α) :
    ∀ i j, j ≠ i → (listModify f i l).get? j = l.get? j := by
  induction l with
  | nil => intro i j _; cases i <;> simp [listModify]
  | cons a as ih =>
      intro i j hne
      cases i with
      | zero => cases j with
        | zero => exact absurd rfl hne
        | succ m => simp [listModify]
      | succ n => cases j with
        | zero => simp [listModify]
        | succ m =>
            have : m ≠ n := fun h => hne (by simp [h])
            simpa [listModify] using ih n m this

theorem tyMem_append_left {t : Ty} {es : List Ty} (h : tyMem t es = true)
    (es2 : List Ty) : tyMem t (es ++ es2) = true := by
  induction es with
  | nil => simp [tyMem] at h
  | cons u us ih =>
      simp [tyMem] at h ⊢
      rcases h with h | h
      · exact Or.inl h
      · exact Or.inr (by simpa [tyMem] using ih h)

theorem tyMem_exportAdd {t u : Ty} {es : List Ty} (h : tyMem t es = true) :
    tyMem t (exportAdd es u) = true := by
  unfold exportAdd
  split
  · exact h
  · exact tyMem_append_left h [u]

theorem tyMem_append_self (es : List Ty) (t : Ty) :
    tyMem t (es ++ [t]) = true := by
  induction es with
  | nil => simp [tyMem, tyBeq_refl]
  | cons u us ih => simp [tyMem] at ih ⊢; exact Or.inr ih

theorem tyMem_exportAdd_self (es : List Ty) (t : Ty) :
    tyMem t (exportAdd es t) = true := by
  unfold exportAdd
  split
  · assumption
  · exact tyMem_append_self es t

theorem tyIndexAppend_self_mem (m : List (Ty × List Nat)) (t : Ty) (i : Nat) :
    i ∈ tyLookup (tyIndexAppend m t i) t := by
  induction m with
  | nil => simp [tyIndexAppend, tyLookup, tyBeq_refl]
  | cons kv rest ih =>
      obtain ⟨k, v⟩ := kv
      by_cases h : Ty.beq k t = true
      · simp [tyIndexAppend, tyLookup, h]
      · simp only [tyIndexAppend, tyLookup, h, Bool.false_eq_true, if_false]
        simpa [tyLookup, h] using ih

theorem tyIndexAppend_mono {m : List (Ty × List Nat)} {u : Ty} {j : Nat}
    (h : j ∈ tyLookup m u) (t : Ty) (i : Nat) :
    j ∈ tyLookup (tyIndexAppend m t i) u := by
  induction m with
  | nil => simp [tyLookup] at h
  | cons kv rest ih =>
      obtain ⟨k, v⟩ := kv
      by_cases hk : Ty.beq k t = true
      · simp only [tyIndexAppend, hk, if_true]
        by_cases hu : Ty.beq k u = true
        · simp only [tyLookup, hu, if_true] at h ⊢
          exact List.mem_append_left _ h
        · simpa [tyLookup, hu] using (by simpa [tyLookup, hu] using h)
      · simp only [tyIndexAppend, hk, Bool.false_eq_true, if_false]
        by_cases hu : Ty.beq k u = true
        · simpa [tyLookup, hu] using (by simpa [tyLookup, hu] using h)
        · simp only [tyLookup, hu, Bool.false_eq_true, if_false] at h ⊢
          exact ih h

/-! ### Structural lemmas about the export loop -/

theorem exportLoop_beans (b : BeanDefinition) (i : Nat) :
    ∀ ts c, (exportLoop c b i ts).1.beans = c.beans := by
  intro ts
  induction ts with
  | nil => intro c; simp [exportLoop]
  | cons t ts ih =>
      intro c
      by_cases h : Implements b.typ t = true
      · simpa [exportLoop, h] using ih _
      · simp [exportLoop, h]

theorem exportLoop_byId (b : BeanDefinition) (i : Nat) :
    ∀ ts c, (exportLoop c b i ts).1.beansById = c.beansById := by
  intro ts
  induction ts with
  | nil => intro c; simp [exportLoop]
  | cons t ts ih =>
      intro c
      by_cases h : Implements b.typ t = true
      · simpa [exportLoop, h] using ih _
      · simp [exportLoop, h]

theorem exportLoop_byName (b : BeanDefinition) (i : Nat) :
    ∀ ts c, (exportLoop c b i ts).1.beansByName = c.beansByName := by
  intro ts
  induction ts with
  | nil => intro c; simp [exportLoop]
  | cons t ts ih =>
      intro c
      by_cases h : Implements b.typ t = true
      · simpa [exportLoop, h] using ih _
      · simp [exportLoop, h]

theorem exportLoop_state (b : BeanDefinition) (i : Nat) :
    ∀ ts c, (exportLoop c b i ts).1.state = c.state := by
  intro ts
  induction ts with
  | nil => intro c; simp [exportLoop]
  | cons t ts ih =>
      intro c
      by_cases h : Implements b.typ t = true
      · simpa [exportLoop, h] using ih _
      · simp [exportLoop, h]

theorem exportLoop_type_mono (b : BeanDefinition) (i : Nat) {u : Ty} {j : Nat} :
    ∀ ts c, j ∈ tyLookup c.beansByType u →
      j ∈ tyLookup (exportLoop c b i ts).1.beansByType u := by
  intro ts
  induction ts with
  | nil => intro c h; simpa [exportLoop] using h
  | cons t ts ih =>
      intro c h
      by_cases hi : Implements b.typ t = true
      · simp only [exportLoop, hi, if_true]
        exact ih _ (tyIndexAppend_mono h t i)
      · simpa [exportLoop, hi] using h

theorem exportLoop_ok (b : BeanDefinition) (i : Nat) :
    ∀ ts c, (∀ t ∈ ts, Implements b.typ t = true) →
      (exportLoop c b i ts).2 = none ∧
      ∀ t ∈ ts, i ∈ tyLookup (exportLoop c b i ts).1.beansByType t := by
  intro ts
  induction ts with
  | nil => intro c _; simp [exportLoop]
  | cons t ts ih =>
      intro c hall
      have ht : Implements b.typ t = true := hall t (by simp)
      have hrest : ∀ u ∈ ts, Implements b.typ u = true := fun u hu => hall u (by simp [hu])
      simp only [exportLoop, ht, if_true]
      have hmem : i ∈ tyLookup (tyIndexAppend c.beansByType t i) t :=
        tyIndexAppend_self_mem c.beansByType t i
      refine ⟨(ih _ hrest).1, ?_⟩
      intro u hu
      rcases List.mem_cons.mp hu with rfl | hu2
      · exact exportLoop_type_mono b i ts _ hmem
      · exact (ih _ hrest).2 u hu2

theorem exportLoop_err (b : BeanDefinition) (i : Nat) {t : Ty}
    (hbad : Implements b.typ t = false) :
    ∀ ts1 ts2 c, (∀ u ∈ ts1, Implements b.typ u = true) →
      (exportLoop c b i (ts1 ++ t :: ts2)).2 =
        some (b.description ++ " not implement " ++ t.str ++ " interface") ∧
      ∀ u ∈ ts1, i ∈ tyLookup (exportLoop c b i (ts1 ++ t :: ts2)).1.beansByType u := by
  intro ts1
  induction ts1 with
  | nil =>
      intro ts2 c _
      simp [exportLoop, hbad]
  | cons u us ih =>
      intro ts2 c hall
      have hu : Implements b.typ u = true := hall u (by simp)
      have hrest : ∀ v ∈ us, Implements b.typ v = true := fun v hv => hall v (by simp [hv])
      simp only [List.cons_append, exportLoop, hu, if_true]
      have hmem : i ∈ tyLookup (tyIndexAppend c.beansByType u i) u :=
        tyIndexAppend_self_mem c.beansByType u i
      refine ⟨(ih ts2 _ hrest).1, ?_⟩
      intro v hv
      rcases List.mem_cons.mp hv with rfl | hv2
      · exact exportLoop_type_mono b i (us ++ t :: ts2) _ hmem
      · exact (ih ts2 _ hrest).2 v hv2

/-! ### Structural lemmas about `resolveBean` -/

theorem resolveBean_noop {c : Container} {i : Nat} {b : BeanDefinition}
    (hb : c.beans.get? i = some b)
    (hst : statusGe b.status .Resolving = true) :
    resolveBean c i = (c, none) := by
  unfold resolveBean
  rw [hb]
  simp [hst]

/-- The container state reached inside `resolveBean` after marking
`Resolving`, indexing the concrete type and installing the
auto-export result (the source's `c3`). -/
def rbStage (c : Container) (i : Nat) (b : BeanDefinition) : Container :=
  setExports
    { setStatus c i .Resolving with
        beansByType := tyIndexAppend c.beansByType b.typ i }
    i (autoExportOf b).1

theorem resolveBean_condFalse {c : Container} {i : Nat} {b : BeanDefinition}
    (hb : c.beans.get? i = some b)
    (hst : statusGe b.status .Resolving = false)
    (hcond : b.cond = some false) :
    resolveBean c i =
      (setStatus { setStatus c i .Resolving with
          beansById := idDelete c.beansById b.id } i .Deleted, none) := by
  unfold resolveBean
  rw [hb]
  simp [hst, hcond, setStatus, modifyBean]

theorem resolveBean_aeErr {c : Container} {i : Nat} {b : BeanDefinition} {e : String}
    (hb : c.beans.get? i = some b)
    (hst : statusGe b.status .Resolving = false)
    (hcond : b.cond ≠ some false)
    (hae : (autoExportOf b).2 = some e) :
    resolveBean c i = (rbStage c i b, some e) := by
  unfold resolveBean
  rw [hb]
  simp only [hst, Bool.false_eq_true, if_false]
  cases hc : b.cond with
  | none => simp [rbStage, setStatus, modifyBean, setExports, hae]
  | some v =>
      cases v with
      | false => exact absurd hc hcond
      | true => simp [rbStage, setStatus, modifyBean, setExports, hae]

theorem resolveBean_loopErr {c : Container} {i : Nat} {b : BeanDefinition}
    {c4 : Container} {e : String}
    (hb : c.beans.get? i = some b)
    (hst : statusGe b.status .Resolving = false)
    (hcond : b.cond ≠ some false)
    (hae : (autoExportOf b).2 = none)
    (hloop : exportLoop (rbStage c i b) b i (autoExportOf b).1 = (c4, some e)) :
    resolveBean c i = (c4, some e) := by
  unfold resolveBean
  rw [hb]
  simp only [hst, Bool.false_eq_true, if_false]
  cases hc : b.cond with
  | none =>
      simp only [hae]
      simp only [rbStage, setStatus, modifyBean, setExports] at hloop
      simp [setStatus, modifyBean, setExports, hloop]
  | some v =>
      cases v with
      | false => exact absurd hc hcond
      | true =>
          simp only [hae]
          simp only [rbStage, setStatus, modifyBean, setExports] at hloop
          simp [setStatus, modifyBean, setExports, hloop]

theorem resolveBean_ok {c : Container} {i : Nat} {b : BeanDefinition}
    {c4 : Container}
    (hb : c.beans.get? i = some b)
    (hst : statusGe b.status .Resolving = false)
    (hcond : b.cond ≠ some false)
    (hae : (autoExportOf b).2 = none)
    (hloop : exportLoop (rbStage c i b) b i (autoExportOf b).1 = (c4, none)) :
    resolveBean c i =
      (setStatus { c4 with beansByName := nameIndexAppend c4.beansByName b.name i }
        i .Resolved, none) := by
  unfold resolveBean
  rw [hb]
  simp only [hst, Bool.false_eq_true, if_false]
  cases hc : b.cond with
  | none =>
      simp only [hae]
      simp only [rbStage, setStatus, modifyBean, setExports] at hloop
      simp [setStatus, modifyBean, setExports, hloop]
  | some v =>
      cases v with
      | false => exact absurd hc hcond
      | true =>
          simp only [hae]
          simp only [rbStage, setStatus, modifyBean, setExports] at hloop
          simp [setStatus, modifyBean, setExports, hloop]

/-- Case-analysis principle packaging the four shape lemmas: every run
of `resolveBean` takes one of five paths. -/
theorem resolveBean_cases (c : Container) (i : Nat)
    (P : Container × Option String → Prop)
    (h0 : c.beans.get? i = none → P (c, none))
    (h1 : ∀ b, c.beans.get? i = some b →
      statusGe b.status .Resolving = true → P (c, none))
    (h2 : ∀ b, c.beans.get? i = some b →
      statusGe b.status .Resolving = false → b.cond = some false →
      P (setStatus { setStatus c i .Resolving with
          beansById := idDelete c.beansById b.id } i .Deleted, none))
    (h3 : ∀ b e, c.beans.get? i = some b →
      statusGe b.status .Resolving = false → b.cond ≠ some false →
      (autoExportOf b).2 = some e → P (rbStage c i b, some e))
    (h4 : ∀ b c4 e, c.beans.get? i = some b →
      statusGe b.status .Resolving = false → b.cond ≠ some false →
      (autoExportOf b).2 = none →
      exportLoop (rbStage c i b) b i (autoExportOf b).1 = (c4, some e) →
      P (c4, some e))
    (h5 : ∀ b c4, c.beans.get? i = some b →
      statusGe b.status .Resolving = false → b.cond ≠ some false →
      (autoExportOf b).2 = none →
      exportLoop (rbStage c i b) b i (autoExportOf b).1 = (c4, none) →
      P (setStatus { c4 with beansByName := nameIndexAppend c4.beansByName b.name i }
          i .Resolved, none)) :
    P (resolveBean c i) := by
  cases hg : c.beans.get? i with
  | none =>
      have : resolveBean c i = (c, none) := by unfold resolveBean; rw [hg]
      rw [this]; exact h0 hg
  | some b =>
      cases hst : statusGe b.status .Resolving with
      | true => rw [resolveBean_noop hg hst]; exact h1 b hg hst
      | false =>
          by_cases hcond : b.cond = some false
          · rw [resolveBean_condFalse hg hst hcond]; exact h2 b hg hst hcond
          · cases hae : (autoExportOf b).2 with
            | some e =>
                rw [resolveBean_aeErr hg hst hcond hae]
                exact h3 b e hg hst hcond hae
            | none =>
                rcases hloop : exportLoop (rbStage c i b) b i (autoExportOf b).1 with
                  ⟨c4, err⟩
                cases err with
                | some e =>
                    rw [resolveBean_loopErr hg hst hcond hae hloop]
                    exact h4 b c4 e hg hst hcond hae hloop
                | none =>
                    rw [resolveBean_ok hg hst hcond hae hloop]
                    exact h5 b c4 hg hst hcond hae hloop

/-! ### Generic preservation lemmas -/

theorem statusGe_resolving_false {s : beanStatus}
    (h : statusGe s .Resolving = false) : s = .Default := by
  cases s <;> simp [statusGe, beanStatus.rank] at h ⊢

/-- The auto-export walk only grows the export set. -/
theorem autoExportFields_mono {t : Ty} :
    ∀ fs es, tyMem t es = true → tyMem t (autoExportFields fs es).1 = true := by
  intro fs es
  induction fs, es using autoExportFields.induct with
  | case1 es => intro h; simpa [autoExportFields] using h
  | case2 anon exp inj auto ft fs es h1 h2 ih =>
      intro h
      simpa [autoExportFields, h1, h2] using ih h
  | case3 anon exp inj auto ft fs es h1 h2 name methods gs hind es2 e hrec ih =>
      intro h
      have hto : tyMem t es2 = true := by
        have := ih h
        rwa [hrec] at this
      simp only [autoExportFields]
      rw [if_pos h1, if_neg h2]
      split
      · rename_i n2 ms2 gs2 hind2
        rw [hind] at hind2
        injection hind2 with e1 e2 e3
        subst e3
        rw [hrec]
        simpa using hto
      · rename_i hx
        exact absurd hind (by simpa using hx name methods gs)
  | case4 anon exp inj auto ft fs es h1 h2 name methods gs hind es2 hrec ih1 ih2 =>
      intro h
      have hm : tyMem t es2 = true := by
        have := ih1 h
        rwa [hrec] at this
      simp only [autoExportFields]
      rw [if_pos h1, if_neg h2]
      split
      · rename_i n2 ms2 gs2 hind2
        rw [hind] at hind2
        injection hind2 with e1 e2 e3
        subst e3
        rw [hrec]
        simpa using ih2 hm
      · rename_i hx
        exact absurd hind (by simpa using hx name methods gs)
  | case5 anon exp inj auto ft fs es h1 h2 hnost ih =>
      intro h
      have hne : ∀ n ms gs, indirect ft ≠ Ty.strukt n ms gs := by
        intro n ms gs hc
        exact hnost n ms gs hc
      simp only [autoExportFields, h1, h2]
      cases hind : indirect ft with
      | strukt n ms gs => exact absurd hind (hne n ms gs)
      | iface n ms => simpa using ih h
      | ptr e => simpa using ih h
      | base n ms => simpa using ih h
  | case6 anon exp inj auto ft fs es h1 h2 =>
      intro h
      simpa [autoExportFields, h1, h2] using h
  | case7 anon exp inj auto ft fs es h1 h2 h3 =>
      intro h
      simpa [autoExportFields, h1, h2, h3] using h
  | case8 anon exp inj auto ft fs es h1 h2 h3 ih =>
      intro h
      simpa [autoExportFields, h1, h2, h3] using ih (tyMem_exportAdd h)

theorem autoExportOf_mono {t : Ty} {b : BeanDefinition}
    (h : tyMem t b.exports = true) : tyMem t (autoExportOf b).1 = true := by
  unfold autoExportOf
  cases hind : indirect b.typ with
  | strukt n ms fs => exact autoExportFields_mono fs b.exports h
  | iface n ms => simpa using h
  | ptr e => simpa using h
  | base n ms => simpa using h

theorem rbStage_get_self (c : Container) (i : Nat) (b : BeanDefinition) :
    (rbStage c i b).beans.get? i =
      (c.beans.get? i).map
        (fun b0 => { b0 with status := .Resolving, exports := (autoExportOf b).1 }) := by
  simp only [rbStage, setExports, setStatus, modifyBean]
  rw [listModify_get_self, listModify_get_self]
  cases c.beans.get? i <;> rfl

theorem rbStage_get_ne (c : Container) (i j : Nat) (b : BeanDefinition) (hne : j ≠ i) :
    (rbStage c i b).beans.get? j = c.beans.get? j := by
  simp only [rbStage, setExports, setStatus, modifyBean]
  rw [listModify_get_ne _ _ _ _ hne, listModify_get_ne _ _ _ _ hne]

theorem resolveBean_get_ne (c : Container) (i j : Nat) (hne : j ≠ i) :
    (resolveBean c i).1.beans.get? j = c.beans.get? j := by
  refine resolveBean_cases c i (fun r => r.1.beans.get? j = c.beans.get? j)
    ?_ ?_ ?_ ?_ ?_ ?_
  · intro _; rfl
  · intro b _ _; rfl
  · intro b _ _ _
    simp only [setStatus, modifyBean]
    rw [listModify_get_ne _ _ _ _ hne, listModify_get_ne _ _ _ _ hne]
  · intro b e _ _ _ _
    exact rbStage_get_ne c i j b hne
  · intro b c4 e _ _ _ _ hloop
    have hb4 := exportLoop_beans b i (autoExportOf b).1 (rbStage c i b)
    rw [hloop] at hb4
    simp only at hb4
    rw [show c4.beans = (rbStage c i b).beans from hb4]
    exact rbStage_get_ne c i j b hne
  · intro b c4 _ _ _ _ hloop
    have hb4 := exportLoop_beans b i (autoExportOf b).1 (rbStage c i b)
    rw [hloop] at hb4
    simp only at hb4
    simp only [setStatus, modifyBean]
    rw [listModify_get_ne _ _ _ _ hne]
    simp only [hb4]
    exact rbStage_get_ne c i j b hne

theorem resolveBean_byId_sub (c : Container) (i : Nat) :
    ∀ kv ∈ (resolveBean c i).1.beansById, kv ∈ c.beansById := by
  refine resolveBean_cases c i (fun r => ∀ kv ∈ r.1.beansById, kv ∈ c.beansById)
    ?_ ?_ ?_ ?_ ?_ ?_
  · intro _ kv h; exact h
  · intro b _ _ kv h; exact h
  · intro b _ _ _ kv h
    simp only [setStatus, modifyBean, idDelete] at h
    exact List.mem_of_mem_filter h
  · intro b e _ _ _ _ kv h
    simpa [rbStage, setExports, setStatus, modifyBean] using h
  · intro b c4 e _ _ _ _ hloop kv h
    have hid := exportLoop_byId b i (autoExportOf b).1 (rbStage c i b)
    rw [hloop] at hid
    simp only at hid
    rw [hid] at h
    simpa [rbStage, setExports, setStatus, modifyBean] using h
  · intro b c4 _ _ _ _ hloop kv h
    have hid := exportLoop_byId b i (autoExportOf b).1 (rbStage c i b)
    rw [hloop] at hid
    simp only at hid
    simp only [setStatus, modifyBean] at h
    rw [hid] at h
    simpa [rbStage, setExports, setStatus, modifyBean] using h

theorem resolveBean_status_mono (c : Container) (i : Nat) :
    ∀ j b b', c.beans.get? j = some b →
      (resolveBean c i).1.beans.get? j = some b' →
      b.status.rank ≤ b'.status.rank := by
  refine resolveBean_cases c i
    (fun r => ∀ j b b', c.beans.get? j = some b →
      r.1.beans.get? j = some b' → b.status.rank ≤ b'.status.rank)
    ?_ ?_ ?_ ?_ ?_ ?_
  · intro _ j b b' h1 h2
    rw [h1] at h2; cases h2; exact le_refl _
  · intro b0 _ _ j b b' h1 h2
    rw [h1] at h2; cases h2; exact le_refl _
  · intro b0 hb0 hst _ j b b' h1 h2
    by_cases hji : j = i
    · subst hji
      rw [hb0] at h1; cases h1
      simp only [setStatus, modifyBean] at h2
      rw [listModify_get_self, listModify_get_self, hb0] at h2
      simp at h2
      rw [statusGe_resolving_false hst]
      rw [show b'.status = beanStatus.Deleted from by rw [← h2]]
      simp [beanStatus.rank]
    · simp only [setStatus, modifyBean] at h2
      rw [listModify_get_ne _ _ _ _ hji, listModify_get_ne _ _ _ _ hji, h1] at h2
      cases h2; exact le_refl _
  · intro b0 e hb0 hst _ _ j b b' h1 h2
    by_cases hji : j = i
    · subst hji
      rw [rbStage_get_self, hb0] at h2
      simp at h2
      rw [hb0] at h1; cases h1
      rw [statusGe_resolving_false hst]
      rw [show b'.status = beanStatus.Resolving from by rw [← h2]]
      simp [beanStatus.rank]
    · rw [rbStage_get_ne c i j b0 hji, h1] at h2
      cases h2; exact le_refl _
  · intro b0 c4 e hb0 hst _ _ hloop j b b' h1 h2
    have hb4 := exportLoop_beans b0 i (autoExportOf b0).1 (rbStage c i b0)
    rw [hloop] at hb4
    simp only at hb4
    rw [show c4.beans = (rbStage c i b0).beans from hb4] at h2
    by_cases hji : j = i
    · subst hji
      rw [rbStage_get_self, hb0] at h2
      simp at h2
      rw [hb0] at h1; cases h1
      rw [statusGe_resolving_false hst]
      rw [show b'.status = beanStatus.Resolving from by rw [← h2]]
      simp [beanStatus.rank]
    · rw [rbStage_get_ne c i j b0 hji, h1] at h2
      cases h2; exact le_refl _
  · intro b0 c4 hb0 hst _ _ hloop j b b' h1 h2
    have hb4 := exportLoop_beans b0 i (autoExportOf b0).1 (rbStage c i b0)
    rw [hloop] at hb4
    simp only at hb4
    simp only [setStatus, modifyBean] at h2
    by_cases hji : j = i
    · subst hji
      rw [listModify_get_self] at h2
      simp only [hb4] at h2
      rw [rbStage_get_self, hb0] at h2
      simp at h2
      rw [hb0] at h1; cases h1
      rw [statusGe_resolving_false hst]
      rw [show b'.status = beanStatus.Resolved from by rw [← h2]]
      simp [beanStatus.rank]
    · rw [listModify_get_ne _ _ _ _ hji] at h2
      simp only [hb4] at h2
      rw [rbStage_get_ne c i j b0 hji, h1] at h2
      cases h2; exact le_refl _

theorem resolveBean_exports_pres {t : Ty} (c : Container) (i : Nat) :
    ∀ j b, c.beans.get? j = some b → tyMem t b.exports = true →
      ∃ b', (resolveBean c i).1.beans.get? j = some b' ∧
        tyMem t b'.exports = true := by
  intro j b h1 hmem
  by_cases hji : j = i
  · subst hji
    refine resolveBean_cases c j
      (fun r => ∃ b', r.1.beans.get? j = some b' ∧ tyMem t b'.exports = true)
      ?_ ?_ ?_ ?_ ?_ ?_
    · intro _; exact ⟨b, h1, hmem⟩
    · intro b0 _ _; exact ⟨b, h1, hmem⟩
    · intro b0 hb0 _ _
      rw [h1] at hb0; cases hb0
      simp only [setStatus, modifyBean]
      rw [listModify_get_self, listModify_get_self, h1]
      exact ⟨_, rfl, by simpa using hmem⟩
    · intro b0 e hb0 _ _ _
      rw [h1] at hb0; cases hb0
      rw [rbStage_get_self, h1]
      exact ⟨_, rfl, by simpa using autoExportOf_mono hmem⟩
    · intro b0 c4 e hb0 _ _ _ hloop
      rw [h1] at hb0; cases hb0
      have hb4 := exportLoop_beans b j (autoExportOf b).1 (rbStage c j b)
      rw [hloop] at hb4
      simp only at hb4
      rw [show c4.beans = (rbStage c j b).beans from hb4, rbStage_get_self, h1]
      exact ⟨_, rfl, by simpa using autoExportOf_mono hmem⟩
    · intro b0 c4 hb0 _ _ _ hloop
      rw [h1] at hb0; cases hb0
      have hb4 := exportLoop_beans b j (autoExportOf b).1 (rbStage c j b)
      rw [hloop] at hb4
      simp only at hb4
      simp only [setStatus, modifyBean]
      rw [listModify_get_self]
      simp only [hb4]
      rw [rbStage_get_self, h1]
      exact ⟨_, rfl, by simpa using autoExportOf_mono hmem⟩
  · exact ⟨b, by rw [resolveBean_get_ne c i j hji]; exact h1, hmem⟩

/-! ### Invariants of the `find` loop -/

/-- The survival test `b.status != Deleted` re-read through the pointer
after on-demand resolution. -/
def keepAlive (c : Container) (i : Nat) : Bool :=
  match c.beans.get? i with
  | some b2 => !(b2.status == beanStatus.Deleted)
  | none => false

theorem findAux_nil (fn : BeanDefinition → Bool) (c : Container) :
    findAux fn c [] = (c, .ok []) := rfl

theorem findAux_cons_none {fn : BeanDefinition → Bool} {c : Container}
    {k : String} {i : Nat} {rest : List (String × Nat)}
    (hg : c.beans.get? i = none) :
    findAux fn c ((k, i) :: rest) = findAux fn c rest := by
  simp only [findAux, hg]

theorem findAux_cons_skip {fn : BeanDefinition → Bool} {c : Container}
    {k : String} {i : Nat} {rest : List (String × Nat)} {b : BeanDefinition}
    (hg : c.beans.get? i = some b)
    (hc : (!(b.status == beanStatus.Resolving) && fn b) = false) :
    findAux fn c ((k, i) :: rest) = findAux fn c rest := by
  simp only [findAux, hg]
  rw [if_neg (by simp [hc])]

theorem findAux_cons_err {fn : BeanDefinition → Bool} {c cr : Container}
    {k : String} {i : Nat} {rest : List (String × Nat)} {b : BeanDefinition}
    {e : String}
    (hg : c.beans.get? i = some b)
    (hc : (!(b.status == beanStatus.Resolving) && fn b) = true)
    (hr : resolveBean c i = (cr, some e)) :
    findAux fn c ((k, i) :: rest) = (cr, .error e) := by
  simp only [findAux, hg]
  rw [if_pos (by simp [hc]), hr]

theorem findAux_cons_go {fn : BeanDefinition → Bool} {c cr : Container}
    {k : String} {i : Nat} {rest : List (String × Nat)} {b : BeanDefinition}
    (hg : c.beans.get? i = some b)
    (hc : (!(b.status == beanStatus.Resolving) && fn b) = true)
    (hr : resolveBean c i = (cr, none)) :
    findAux fn c ((k, i) :: rest) =
      (match findAux fn cr rest with
       | (c3, .error e) => (c3, .error e)
       | (c3, .ok res) => (c3, .ok (if keepAlive cr i then i :: res else res))) := by
  simp only [findAux, hg, keepAlive]
  rw [if_pos (by simp [hc]), hr]

theorem findAux_res_sub {fn : BeanDefinition → Bool} :
    ∀ l c c2 res, findAux fn c l = (c2, .ok res) →
      ∀ j ∈ res, ∃ k, (k, j) ∈ l := by
  intro l
  induction l with
  | nil =>
      intro c c2 res h j hj
      rw [findAux_nil] at h
      cases h
      simp at hj
  | cons kv rest ih =>
      intro c c2 res h j hj
      obtain ⟨k, i⟩ := kv
      cases hg : c.beans.get? i with
      | none =>
          rw [findAux_cons_none hg] at h
          obtain ⟨k2, hk2⟩ := ih c c2 res h j hj
          exact ⟨k2, by simp [hk2]⟩
      | some b =>
          cases hc : (!(b.status == beanStatus.Resolving) && fn b) with
          | false =>
              rw [findAux_cons_skip hg hc] at h
              obtain ⟨k2, hk2⟩ := ih c c2 res h j hj
              exact ⟨k2, by simp [hk2]⟩
          | true =>
              rcases hr : resolveBean c i with ⟨cr, err⟩
              cases err with
              | some e =>
                  rw [findAux_cons_err hg hc hr] at h
                  simp [Prod.mk.injEq] at h
              | none =>
                  rw [findAux_cons_go hg hc hr] at h
                  rcases hf : findAux fn cr rest with ⟨c3, r3⟩
                  rw [hf] at h
                  cases r3 with
                  | error e => simp [Prod.mk.injEq] at h
                  | ok res2 =>
                      simp only [Prod.mk.injEq, Except.ok.injEq] at h
                      obtain ⟨hc23, hres⟩ := h
                      rw [← hres] at hj
                      cases hk : keepAlive cr i with
                      | true =>
                          rw [hk] at hj
                          simp only [if_true] at hj
                          rcases List.mem_cons.mp hj with rfl | hj2
                          · exact ⟨k, by simp⟩
                          · obtain ⟨k2, hk2⟩ := ih cr c3 res2 hf j hj2
                            exact ⟨k2, by simp [hk2]⟩
                      | false =>
                          rw [hk] at hj
                          simp only [Bool.false_eq_true, if_false] at hj
                          obtain ⟨k2, hk2⟩ := ih cr c3 res2 hf j hj
                          exact ⟨k2, by simp [hk2]⟩


theorem findAux_exports_pres {t : Ty} {fn : BeanDefinition → Bool} :
    ∀ l c c2 r j b, findAux fn c l = (c2, r) →
      c.beans.get? j = some b → tyMem t b.exports = true →
      ∃ b2, c2.beans.get? j = some b2 ∧ tyMem t b2.exports = true := by
  intro l
  induction l with
  | nil =>
      intro c c2 r j b h hj hm
      rw [findAux_nil] at h
      cases h
      exact ⟨b, hj, hm⟩
  | cons kv rest ih =>
      intro c c2 r j b h hj hm
      obtain ⟨k, i⟩ := kv
      cases hg : c.beans.get? i with
      | none =>
          rw [findAux_cons_none hg] at h
          exact ih c c2 r j b h hj hm
      | some bi =>
          cases hc : (!(bi.status == beanStatus.Resolving) && fn bi) with
          | false =>
              rw [findAux_cons_skip hg hc] at h
              exact ih c c2 r j b h hj hm
          | true =>
              rcases hr : resolveBean c i with ⟨cr, err⟩
              obtain ⟨b2, hb2, hm2⟩ := resolveBean_exports_pres (t := t) c i j b hj hm
              rw [hr] at hb2
              simp only at hb2
              cases err with
              | some e =>
                  rw [findAux_cons_err hg hc hr] at h
                  cases h
                  exact ⟨b2, hb2, hm2⟩
              | none =>
                  rw [findAux_cons_go hg hc hr] at h
                  rcases hf : findAux fn cr rest with ⟨c3, r3⟩
                  rw [hf] at h
                  have hc3 : c2 = c3 := by
                    cases r3 with
                    | error e => cases h; rfl
                    | ok res2 =>
                        simp only [Prod.mk.injEq] at h
                        exact h.1.symm
                  subst hc3
                  exact ih cr c2 r3 j b2 hf hb2 hm2

theorem findAux_skip_invariant {fn : BeanDefinition → Bool} {j : Nat}
    {b : BeanDefinition} (hfnb : fn b = false) :
    ∀ l c c2 res, findAux fn c l = (c2, .ok res) →
      c.beans.get? j = some b →
      c2.beans.get? j = some b ∧ j ∉ res := by
  intro l
  induction l with
  | nil =>
      intro c c2 res h hj
      rw [findAux_nil] at h
      cases h
      exact ⟨hj, by simp⟩
  | cons kv rest ih =>
      intro c c2 res h hj
      obtain ⟨k, i⟩ := kv
      by_cases hij : i = j
      · subst hij
        rw [findAux_cons_skip hj (by simp [hfnb])] at h
        exact ih c c2 res h hj
      · cases hg : c.beans.get? i with
        | none =>
            rw [findAux_cons_none hg] at h
            exact ih c c2 res h hj
        | some bi =>
            cases hc : (!(bi.status == beanStatus.Resolving) && fn bi) with
            | false =>
                rw [findAux_cons_skip hg hc] at h
                exact ih c c2 res h hj
            | true =>
                rcases hr : resolveBean c i with ⟨cr, err⟩
                cases err with
                | some e =>
                    rw [findAux_cons_err hg hc hr] at h
                    simp [Prod.mk.injEq] at h
                | none =>
                    rw [findAux_cons_go hg hc hr] at h
                    rcases hf : findAux fn cr rest with ⟨c3, r3⟩
                    rw [hf] at h
                    cases r3 with
                    | error e => simp [Prod.mk.injEq] at h
                    | ok res2 =>
                        simp only [Prod.mk.injEq, Except.ok.injEq] at h
                        obtain ⟨hc23, hres⟩ := h
                        subst hc23
                        have hjcr : cr.beans.get? j = some b := by
                          have := resolveBean_get_ne c i j (fun he => hij he.symm)
                          rw [hr] at this
                          simp only at this
                          rw [this]
                          exact hj
                        obtain ⟨hj3, hnot⟩ := ih cr c3 res2 hf hjcr
                        refine ⟨hj3, ?_⟩
                        rw [← hres]
                        cases keepAlive cr i with
                        | true =>
                            simp only [if_true]
                            intro hmem
                            rcases List.mem_cons.mp hmem with rfl | h2
                            · exact hij rfl
                            · exact hnot h2
                        | false =>
                            simp only [Bool.false_eq_true, if_false]
                            exact hnot

theorem findAux_exported {t : Ty} {fn : BeanDefinition → Bool}
    (hfn : ∀ b, fn b = true → tyMem t b.exports = true) :
    ∀ l c c2 res, findAux fn c l = (c2, .ok res) →
      ∀ j ∈ res, ∃ b2, c2.beans.get? j = some b2 ∧ tyMem t b2.exports = true := by
  intro l
  induction l with
  | nil =>
      intro c c2 res h j hj
      rw [findAux_nil] at h
      cases h
      simp at hj
  | cons kv rest ih =>
      intro c c2 res h j hj
      obtain ⟨k, i⟩ := kv
      cases hg : c.beans.get? i with
      | none =>
          rw [findAux_cons_none hg] at h
          exact ih c c2 res h j hj
      | some bi =>
          cases hc : (!(bi.status == beanStatus.Resolving) && fn bi) with
          | false =>
              rw [findAux_cons_skip hg hc] at h
              exact ih c c2 res h j hj
          | true =>
              rcases hr : resolveBean c i with ⟨cr, err⟩
              cases err with
              | some e =>
                  rw [findAux_cons_err hg hc hr] at h
                  simp [Prod.mk.injEq] at h
              | none =>
                  rw [findAux_cons_go hg hc hr] at h
                  rcases hf : findAux fn cr rest with ⟨c3, r3⟩
                  rw [hf] at h
                  cases r3 with
                  | error e => simp [Prod.mk.injEq] at h
                  | ok res2 =>
                      simp only [Prod.mk.injEq, Except.ok.injEq] at h
                      obtain ⟨hc23, hres⟩ := h
                      subst hc23
                      rw [← hres] at hj
                      have hji : j = i → ∃ b2, c3.beans.get? j = some b2 ∧
                          tyMem t b2.exports = true := by
                        intro hjeq
                        subst hjeq
                        have hfnb : fn bi = true := by
                          cases hfn2 : fn bi with
                          | true => rfl
                          | false => rw [hfn2] at hc; simp at hc
                        have hmb : tyMem t bi.exports = true := hfn bi hfnb
                        obtain ⟨b2, hb2, hm2⟩ :=
                          resolveBean_exports_pres (t := t) c j j bi hg hmb
                        rw [hr] at hb2
                        simp only at hb2
                        exact findAux_exports_pres rest cr c3 (.ok res2) j b2 hf hb2 hm2
                      cases hk : keepAlive cr i with
                      | true =>
                          rw [hk] at hj
                          simp only [if_true] at hj
                          rcases List.mem_cons.mp hj with rfl | hj2
                          · exact hji rfl
                          · exact ih cr c3 res2 hf j hj2
                      | false =>
                          rw [hk] at hj
                          simp only [Bool.false_eq_true, if_false] at hj
                          exact ih cr c3 res2 hf j hj


/-! ### Lemmas about the shutdown path -/

theorem runDestroyers_append (xs ys : List Destroyer) :
    runDestroyers (xs ++ ys) =
      ((runDestroyers xs).1 ++ (runDestroyers ys).1,
       (runDestroyers xs).2 ++ (runDestroyers ys).2) := by
  induction xs with
  | nil => simp [runDestroyers]
  | cons d ds ih => simp [runDestroyers, ih]

theorem destroyerEvents_count_cancel (ds : List Destroyer) :
    (destroyerEvents ds).count Event.cancelContext = 0 := by
  induction ds with
  | nil => simp [destroyerEvents]
  | cons d rest ih =>
      cases hr : d.result with
      | none => simp [destroyerEvents, hr, ih]
      | some e => simp [destroyerEvents, hr, ih]

/-- C7: during shutdown the destroyer entries run sequentially in list
order, each failure is logged, and a failing destroyer does not prevent
any later destroyer from running: the executed sequence is always the
whole list, the log collects exactly the errors in order, and around
any failing entry the loop still executes both sides. -/
theorem claim7_destroyer_isolation :
    (∀ ds : List Destroyer,
      (runDestroyers ds).1 = ds ∧
      (runDestroyers ds).2 = ds.filterMap Destroyer.result) ∧
    (∀ xs ys : List Destroyer, ∀ d : Destroyer,
      (runDestroyers (xs ++ d :: ys)).1 = xs ++ d :: ys ∧
      (runDestroyers (xs ++ d :: ys)).2 =
        (runDestroyers xs).2 ++ (d.result.toList ++ (runDestroyers ys).2)) := by
  have base : ∀ ds : List Destroyer,
      (runDestroyers ds).1 = ds ∧
      (runDestroyers ds).2 = ds.filterMap Destroyer.result := by
    intro ds
    induction ds with
    | nil => simp [runDestroyers]
    | cons d rest ih =>
        cases hr : d.result with
        | none => simp [runDestroyers, hr, ih.1, ih.2, List.filterMap_cons]
        | some e => simp [runDestroyers, hr, ih.1, ih.2, List.filterMap_cons]
  refine ⟨base, ?_⟩
  intro xs ys d
  rw [runDestroyers_append]
  constructor
  · rw [(base xs).1, (base (d :: ys)).1]
  · have : (runDestroyers (d :: ys)).2 = d.result.toList ++ (runDestroyers ys).2 := by
      cases hr : d.result with
      | none => simp [runDestroyers, hr]
      | some e => simp [runDestroyers, hr]
    rw [this]

/-- C8 counterexample: the claim says `Close` is only valid once the
container is `Refreshed`, but the guard only rejects the `Unrefreshed`
state: on a container that is merely `Refreshing` (not `Refreshed`),
`Close` proceeds normally. -/
theorem claim8_counterexample :
    ({ newContainer with state := .Refreshing } : Container).state ≠ .Refreshed ∧
    Close { newContainer with state := .Refreshing } =
      .ok [Event.cancelContext, Event.waitAllTasks] := by
  constructor
  · decide
  · rfl

/-- C8 (amended): `Close` is fatal exactly when called before refresh
has begun (the guard admits the `Refreshing` state as well as
`Refreshed`); when it proceeds, its effect trace cancels the shared
context exactly once, then performs the blocking wait on the task
wait-group, and only then runs every destroyer in scheduler order. -/
theorem claim8_close_trace (c : Container) :
    (c.state = .Unrefreshed → Close c = .error "should call after Refreshing") ∧
    (c.state ≠ .Unrefreshed →
      Close c = .ok (Event.cancelContext :: Event.waitAllTasks ::
        destroyerEvents c.destroyerList) ∧
      (Event.cancelContext :: Event.waitAllTasks ::
        destroyerEvents c.destroyerList).count Event.cancelContext = 1 ∧
      (runDestroyers c.destroyerList).1 = c.destroyerList) := by
  constructor
  · intro h
    simp [Close, callAfterRefreshing, h]
  · intro h
    refine ⟨by simp [Close, callAfterRefreshing, h], ?_, ?_⟩
    · simp [List.count_cons, destroyerEvents_count_cancel]
    · induction c.destroyerList with
      | nil => simp [runDestroyers]
      | cons d rest ih => simp [runDestroyers, ih]

/-- C8 witness: the amended theorem applied to a refreshed container
with one failing destroyer. -/
theorem claim8_close_trace_witness :
    Close { newContainer with
      state := .Refreshed,
      destroyerList := [⟨"d1", some "boom"⟩] } =
      .ok [Event.cancelContext, Event.waitAllTasks,
        Event.ranDestroyer "d1", Event.loggedError "boom"] :=
  ((claim8_close_trace { newContainer with
      state := .Refreshed,
      destroyerList := [⟨"d1", some "boom"⟩] }).2 (by decide)).1


/-! ### Phase gating -/

theorem Refresh_success_state {c c2 : Container} (h : Refresh c = (c2, none)) :
    c2.state = .Refreshed := by
  unfold Refresh at h
  by_cases hs : c.state ≠ .Unrefreshed
  · rw [if_pos hs] at h
    simp at h
  · rw [if_neg hs] at h
    simp only at h
    rcases hr : registerBeans { c with state := .Refreshing } with ⟨c1, e1⟩
    rw [hr] at h
    cases e1 with
    | some e => simp at h
    | none =>
        simp only at h
        rcases hb : resolveBeans (resolveConfigers c1) with ⟨c3, e3⟩
        rw [hb] at h
        cases e3 with
        | some e => simp at h
        | none =>
            simp only at h
            cases hg : runConfigers c3.configerList with
            | some e => rw [hg] at h; simp at h
            | none =>
                rw [hg] at h
                simp only [Prod.mk.injEq] at h
                rw [← h.1]

/-- C6: every structural mutation method (`Object`, `Provide`,
`Register`, `Config`, `Load`, `Property`) fails with the
programming-error panic when the container is no longer `Unrefreshed`;
the query method `find` fails with the converse panic while the
container is still `Unrefreshed`; `Refresh` fails with "already
refreshed" whenever the state has left `Unrefreshed`, and in
particular a second call to a successful `Refresh` does so. -/
theorem claim6_phase_gating :
    (∀ c : Container, c.state ≠ .Unrefreshed →
      (∀ kvs, Load c kvs = (c, some "should call before Refreshing")) ∧
      (∀ k v, Property c k v = (c, some "should call before Refreshing")) ∧
      (∀ b, Object c b = (c, some "should call before Refreshing")) ∧
      (∀ b, Provide c b = (c, some "should call before Refreshing")) ∧
      (∀ b, Register c b = (c, some "should call before Refreshing")) ∧
      (∀ f1 f2 g, Config c f1 f2 g = (c, some "should call before Refreshing"))) ∧
    (∀ c : Container, c.state = .Unrefreshed →
      ∀ sel, find c sel = (c, .error "should call after Refreshing")) ∧
    (∀ c : Container, c.state ≠ .Unrefreshed →
      Refresh c = (c, some "already refreshed")) ∧
    (∀ c c2 : Container, Refresh c = (c2, none) →
      Refresh c2 = (c2, some "already refreshed")) := by
  have hguard : ∀ c : Container, c.state ≠ .Unrefreshed →
      callBeforeRefreshing c = some "should call before Refreshing" := by
    intro c h
    simp [callBeforeRefreshing, h]
  refine ⟨?_, ?_, ?_, ?_⟩
  · intro c h
    refine ⟨?_, ?_, ?_, ?_, ?_, ?_⟩
    · intro kvs; simp [Load, hguard c h]
    · intro k v; simp [Property, hguard c h]
    · intro b; simp [Object, hguard c h]
    · intro b; simp [Provide, hguard c h]
    · intro b; simp [Register, hguard c h]
    · intro f1 f2 g; simp [Config, hguard c h]
  · intro c h sel
    have : callAfterRefreshing c = some "should call after Refreshing" := by
      simp [callAfterRefreshing, h]
    cases sel with
    | tag tn bn => simp [find, this]
    | ofType t => simp [find, this]
  · intro c h
    unfold Refresh
    rw [if_pos h]
  · intro c c2 h
    have h2 : c2.state = .Refreshed := Refresh_success_state h
    unfold Refresh
    rw [if_pos (by rw [h2]; intro hx; cases hx)]

/-- C6 witness: the gating applied at concrete containers, including a
full successful refresh followed by a rejected second refresh. -/
theorem claim6_phase_gating_witness :
    Register { newContainer with state := .Refreshed }
        ⟨"b", "n", "d", Ty.base "T" [], none, [], .Default⟩ =
      ({ newContainer with state := .Refreshed },
        some "should call before Refreshing") ∧
    find newContainer (.tag "" "") =
      (newContainer, .error "should call after Refreshing") ∧
    Refresh { newContainer with state := .Refreshing } =
      ({ newContainer with state := .Refreshing }, some "already refreshed") ∧
    Refresh { newContainer with state := .Refreshed } =
      ({ newContainer with state := .Refreshed }, some "already refreshed") := by
  refine ⟨?_, ?_, ?_, ?_⟩
  · exact ((claim6_phase_gating.1 { newContainer with state := .Refreshed }
      (by decide)).2.2.2.2.1 ⟨"b", "n", "d", Ty.base "T" [], none, [], .Default⟩)
  · exact claim6_phase_gating.2.1 newContainer (by decide) (.tag "" "")
  · exact claim6_phase_gating.2.2.1 { newContainer with state := .Refreshing }
      (by decide)
  · exact claim6_phase_gating.2.2.2 newContainer { newContainer with state := .Refreshed }
      (by rfl)


/-! ### Auto-export over an embedding chain -/

/-- C5: for a bean whose struct `A` embeds an anonymous untagged struct
`B` which embeds an anonymous untagged struct `C` carrying an
`export`-tagged interface field `I`, the auto-export walk adds `I` to
the outermost bean's export set; if instead the embedding field of `B`
inside `A` carries an `inject` (or `autowire`) tag, recursion stops
there and `I` is not surfaced. -/
theorem claim5_auto_export_chain (b : BeanDefinition)
    (nA nB nC nI : String) (mA mB mC msI : List String) (aC : Bool) :
    (b.typ = Ty.strukt nA mA
        [ .mk true false false false (Ty.strukt nB mB
          [ .mk true false false false (Ty.strukt nC mC
            [ .mk aC true false false (Ty.iface nI msI) ]) ]) ] →
      autoExportOf b = (exportAdd b.exports (Ty.iface nI msI), none) ∧
      tyMem (Ty.iface nI msI) (autoExportOf b).1 = true) ∧
    (b.typ = Ty.strukt nA mA
        [ .mk true false true false (Ty.strukt nB mB
          [ .mk true false false false (Ty.strukt nC mC
            [ .mk aC true false false (Ty.iface nI msI) ]) ]) ] →
      autoExportOf b = (b.exports, none) ∧
      (tyMem (Ty.iface nI msI) b.exports = false →
        tyMem (Ty.iface nI msI) (autoExportOf b).1 = false)) ∧
    (b.typ = Ty.strukt nA mA
        [ .mk true false false true (Ty.strukt nB mB
          [ .mk true false false false (Ty.strukt nC mC
            [ .mk aC true false false (Ty.iface nI msI) ]) ]) ] →
      autoExportOf b = (b.exports, none) ∧
      (tyMem (Ty.iface nI msI) b.exports = false →
        tyMem (Ty.iface nI msI) (autoExportOf b).1 = false)) := by
  refine ⟨?_, ?_, ?_⟩
  · intro ht
    have he : autoExportOf b = (exportAdd b.exports (Ty.iface nI msI), none) := by
      unfold autoExportOf
      rw [ht]
      simp [indirect, autoExportFields, Ty.isInterface]
    refine ⟨he, ?_⟩
    rw [he]
    exact tyMem_exportAdd_self b.exports (Ty.iface nI msI)
  · intro ht
    have he : autoExportOf b = (b.exports, none) := by
      unfold autoExportOf
      rw [ht]
      simp [indirect, autoExportFields]
    exact ⟨he, fun hm => by rw [he]; exact hm⟩
  · intro ht
    have he : autoExportOf b = (b.exports, none) := by
      unfold autoExportOf
      rw [ht]
      simp [indirect, autoExportFields]
    exact ⟨he, fun hm => by rw [he]; exact hm⟩

/-- C5 witness: the chain evaluated on a concrete bean, surfacing the
interface in the first configuration and suppressing it in the
inject-tagged one. -/
theorem claim5_auto_export_chain_witness :
    autoExportOf ⟨"a", "a", "bean a",
        Ty.strukt "A" [] [ .mk true false false false (Ty.strukt "B" []
          [ .mk true false false false (Ty.strukt "C" []
            [ .mk false true false false (Ty.iface "I" ["M"]) ]) ]) ],
        none, [], .Default⟩ =
      ([Ty.iface "I" ["M"]], none) ∧
    autoExportOf ⟨"a", "a", "bean a",
        Ty.strukt "A" [] [ .mk true false true false (Ty.strukt "B" []
          [ .mk true false false false (Ty.strukt "C" []
            [ .mk false true false false (Ty.iface "I" ["M"]) ]) ]) ],
        none, [], .Default⟩ =
      ([], none) := by
  constructor
  · exact ((claim5_auto_export_chain ⟨"a", "a", "bean a",
      Ty.strukt "A" [] [ .mk true false false false (Ty.strukt "B" []
        [ .mk true false false false (Ty.strukt "C" []
          [ .mk false true false false (Ty.iface "I" ["M"]) ]) ]) ],
      none, [], .Default⟩ "A" "B" "C" "I" [] [] [] ["M"] false).1 rfl).1
  · exact ((claim5_auto_export_chain ⟨"a", "a", "bean a",
      Ty.strukt "A" [] [ .mk true false true false (Ty.strukt "B" []
        [ .mk true false false false (Ty.strukt "C" []
          [ .mk false true false false (Ty.iface "I" ["M"]) ]) ]) ],
      none, [], .Default⟩ "A" "B" "C" "I" [] [] [] ["M"] false).2.1 rfl).1


/-! ### Resolution status lifecycle -/

/-- C2: a bean's resolution status only ever advances (in the order
`Default < Resolving < {Resolved, Deleted}`), and `resolveBean` on a
descriptor already at or past `Resolving` returns immediately leaving
the container completely unchanged — the no-op that makes re-entrant
resolution of a cycle safe. -/
theorem claim2_status_monotone_reentrant_noop :
    (∀ (c : Container) (i : Nat) (b : BeanDefinition),
      c.beans.get? i = some b → statusGe b.status .Resolving = true →
      resolveBean c i = (c, none)) ∧
    (∀ (c : Container) (i j : Nat) (b b2 : BeanDefinition),
      c.beans.get? j = some b →
      (resolveBean c i).1.beans.get? j = some b2 →
      b.status.rank ≤ b2.status.rank) := by
  refine ⟨?_, ?_⟩
  · intro c i b hb hst
    exact resolveBean_noop hb hst
  · intro c i j b b2 hb hb2
    exact resolveBean_status_mono c i j b b2 hb hb2

/-- C2 witness: re-entrant resolution of a bean already `Resolving` is
a no-op on a concrete container, and statuses advance on a concrete
run that resolves a `Default` bean. -/
theorem claim2_status_monotone_reentrant_noop_witness :
    resolveBean { newContainer with
        beans := [⟨"b", "n", "d", Ty.base "T" [], none, [], .Resolving⟩],
        beansById := [("b", 0)] } 0 =
      ({ newContainer with
        beans := [⟨"b", "n", "d", Ty.base "T" [], none, [], .Resolving⟩],
        beansById := [("b", 0)] }, none) ∧
    beanStatus.rank .Default ≤ beanStatus.rank .Resolved := by
  constructor
  · exact claim2_status_monotone_reentrant_noop.1
      { newContainer with
        beans := [⟨"b", "n", "d", Ty.base "T" [], none, [], .Resolving⟩],
        beansById := [("b", 0)] } 0
      ⟨"b", "n", "d", Ty.base "T" [], none, [], .Resolving⟩ rfl (by decide)
  · exact claim2_status_monotone_reentrant_noop.2
      { newContainer with
        beans := [⟨"b", "n", "d", Ty.base "T" [], none, [], .Default⟩] } 0 0
      ⟨"b", "n", "d", Ty.base "T" [], none, [], .Default⟩
      ⟨"b", "n", "d", Ty.base "T" [], none, [], .Resolved⟩ rfl (by rfl)


/-! ### Declared exports: verification and indexing -/

theorem statusGe_of_default {b : BeanDefinition} (h : b.status = .Default) :
    statusGe b.status .Resolving = false := by
  rw [h]; decide

/-- C4: during resolution of a surviving bean, a declared export the
concrete type does not implement makes `resolveBean` fail with an error
naming the descriptor and the offending interface, while if every
declared export is implemented the resolution succeeds and the bean is
additionally indexed under every one of those interface types.  (The
bean's type is assumed to contribute no auto-exports, so the declared
set is exactly what the loop processes.) -/
theorem claim4_export_check_and_index (c : Container) (i : Nat)
    (b : BeanDefinition)
    (hb : c.beans.get? i = some b)
    (hst : b.status = .Default)
    (hcond : b.cond ≠ some false)
    (hae : autoExportOf b = (b.exports, none)) :
    (∀ ts1 t ts2, b.exports = ts1 ++ t :: ts2 →
      (∀ u ∈ ts1, Implements b.typ u = true) →
      Implements b.typ t = false →
      (resolveBean c i).2 =
        some (b.description ++ " not implement " ++ t.str ++ " interface")) ∧
    ((∀ t ∈ b.exports, Implements b.typ t = true) →
      (resolveBean c i).2 = none ∧
      ∀ t ∈ b.exports, i ∈ tyLookup (resolveBean c i).1.beansByType t) := by
  have hstf := statusGe_of_default hst
  have hae1 : (autoExportOf b).1 = b.exports := by rw [hae]
  have hae2 : (autoExportOf b).2 = none := by rw [hae]
  constructor
  · intro ts1 t ts2 hexp himp hbad
    rcases hl : exportLoop (rbStage c i b) b i (autoExportOf b).1 with ⟨c4, err⟩
    have herr := (exportLoop_err b i hbad ts1 ts2 (rbStage c i b) himp).1
    rw [← hexp, ← hae1] at herr
    rw [hl] at herr
    simp only at herr
    rw [herr] at hl
    rw [resolveBean_loopErr hb hstf hcond hae2 hl]
  · intro hall
    rcases hl : exportLoop (rbStage c i b) b i (autoExportOf b).1 with ⟨c4, err⟩
    have hok := exportLoop_ok b i (autoExportOf b).1 (rbStage c i b)
      (by rw [hae1]; exact hall)
    rw [hl] at hok
    simp only at hok
    rw [hok.1] at hl
    rw [resolveBean_ok hb hstf hcond hae2 hl]
    refine ⟨rfl, ?_⟩
    intro t ht
    have := hok.2 t (by rw [hae1]; exact ht)
    simpa [setStatus, modifyBean] using this

/-- C4 witness: a concrete bean with one implemented and one
unimplemented declared export, exercising both directions. -/
theorem claim4_export_check_and_index_witness :
    (resolveBean { newContainer with
        beans := [⟨"b", "n", "bean b", Ty.base "T" ["M"], none,
          [Ty.iface "I" ["M"], Ty.iface "J" ["N"]], .Default⟩],
        beansById := [("b", 0)] } 0).2 =
      some "bean b not implement J interface" ∧
    (resolveBean { newContainer with
        beans := [⟨"b2", "n2", "bean b2", Ty.base "T" ["M"], none,
          [Ty.iface "I" ["M"]], .Default⟩],
        beansById := [("b2", 0)] } 0).2 = none := by
  constructor
  · exact (claim4_export_check_and_index { newContainer with
        beans := [⟨"b", "n", "bean b", Ty.base "T" ["M"], none,
          [Ty.iface "I" ["M"], Ty.iface "J" ["N"]], .Default⟩],
        beansById := [("b", 0)] } 0
      ⟨"b", "n", "bean b", Ty.base "T" ["M"], none,
        [Ty.iface "I" ["M"], Ty.iface "J" ["N"]], .Default⟩
      rfl rfl (by decide) rfl).1
      [Ty.iface "I" ["M"]] (Ty.iface "J" ["N"]) [] rfl
      (by intro u hu; simp at hu; rw [hu]; rfl) (by rfl)
  · exact ((claim4_export_check_and_index { newContainer with
        beans := [⟨"b2", "n2", "bean b2", Ty.base "T" ["M"], none,
          [Ty.iface "I" ["M"]], .Default⟩],
        beansById := [("b2", 0)] } 0
      ⟨"b2", "n2", "bean b2", Ty.base "T" ["M"], none,
        [Ty.iface "I" ["M"]], .Default⟩
      rfl rfl (by decide) rfl).2
      (by intro t ht; simp at ht; rw [ht]; rfl)).1


/-! ### Non-atomicity of a failed resolution -/

/-- C10: when `resolveBean` fails on an unimplemented declared export,
the mutations already performed are kept: the bean is left with the
non-terminal status `Resolving`, the identity index is untouched (the
bean stays in it), the bean is indexed under its concrete type and
under every export processed before the failing one, and the name
index is untouched (the bean was never indexed under its name). -/
theorem claim10_failed_resolution_state (c : Container) (i : Nat)
    (b : BeanDefinition) (ts1 : List Ty) (t : Ty) (ts2 : List Ty)
    (hb : c.beans.get? i = some b)
    (hst : b.status = .Default)
    (hcond : b.cond ≠ some false)
    (hae : autoExportOf b = (b.exports, none))
    (hexp : b.exports = ts1 ++ t :: ts2)
    (himp : ∀ u ∈ ts1, Implements b.typ u = true)
    (hbad : Implements b.typ t = false)
    (hin : (b.id, i) ∈ c.beansById)
    (hname : ∀ k, i ∉ nameLookup c.beansByName k) :
    (resolveBean c i).2 =
      some (b.description ++ " not implement " ++ t.str ++ " interface") ∧
    (∃ b2, (resolveBean c i).1.beans.get? i = some b2 ∧
      b2.status = .Resolving) ∧
    (resolveBean c i).1.beansById = c.beansById ∧
    (b.id, i) ∈ (resolveBean c i).1.beansById ∧
    i ∈ tyLookup (resolveBean c i).1.beansByType b.typ ∧
    (∀ u ∈ ts1, i ∈ tyLookup (resolveBean c i).1.beansByType u) ∧
    (resolveBean c i).1.beansByName = c.beansByName ∧
    (∀ k, i ∉ nameLookup (resolveBean c i).1.beansByName k) := by
  have hstf := statusGe_of_default hst
  have hae1 : (autoExportOf b).1 = b.exports := by rw [hae]
  have hae2 : (autoExportOf b).2 = none := by rw [hae]
  rcases hl : exportLoop (rbStage c i b) b i (autoExportOf b).1 with ⟨c4, err⟩
  have herr := exportLoop_err b i hbad ts1 ts2 (rbStage c i b) himp
  rw [← hexp, ← hae1] at herr
  rw [hl] at herr
  simp only at herr
  obtain ⟨herr1, herr2⟩ := herr
  rw [herr1] at hl
  have hres := resolveBean_loopErr hb hstf hcond hae2 hl
  rw [hres]
  have hbid : c4.beansById = c.beansById := by
    have := exportLoop_byId b i (autoExportOf b).1 (rbStage c i b)
    rw [hl] at this
    simp only at this
    rw [this]
    rfl
  have hbname : c4.beansByName = c.beansByName := by
    have := exportLoop_byName b i (autoExportOf b).1 (rbStage c i b)
    rw [hl] at this
    simp only at this
    rw [this]
    rfl
  have hbeans : c4.beans = (rbStage c i b).beans := by
    have := exportLoop_beans b i (autoExportOf b).1 (rbStage c i b)
    rw [hl] at this
    simpa using this
  refine ⟨rfl, ?_, hbid, by rw [hbid]; exact hin, ?_, ?_, hbname,
    by rw [hbname]; exact hname⟩
  · refine ⟨{ b with status := .Resolving, exports := (autoExportOf b).1 }, ?_, rfl⟩
    simp only [hbeans]
    rw [rbStage_get_self, hb]
    rfl
  · have hmem : i ∈ tyLookup (rbStage c i b).beansByType b.typ := by
      simp only [rbStage, setExports, setStatus, modifyBean]
      exact tyIndexAppend_self_mem c.beansByType b.typ i
    have := exportLoop_type_mono b i (autoExportOf b).1 (rbStage c i b) hmem
    rw [hl] at this
    simpa using this
  · exact herr2

/-- C10 witness: the failed resolution of a concrete bean with one
implemented export before the failing one. -/
theorem claim10_failed_resolution_state_witness :
    (resolveBean { newContainer with
        beans := [⟨"b", "n", "bean b", Ty.base "T" ["M"], none,
          [Ty.iface "I" ["M"], Ty.iface "J" ["N"]], .Default⟩],
        beansById := [("b", 0)] } 0).2 =
      some "bean b not implement J interface" ∧
    (resolveBean { newContainer with
        beans := [⟨"b", "n", "bean b", Ty.base "T" ["M"], none,
          [Ty.iface "I" ["M"], Ty.iface "J" ["N"]], .Default⟩],
        beansById := [("b", 0)] } 0).1.beansById = [("b", 0)] := by
  have h := claim10_failed_resolution_state
    { newContainer with
      beans := [⟨"b", "n", "bean b", Ty.base "T" ["M"], none,
        [Ty.iface "I" ["M"], Ty.iface "J" ["N"]], .Default⟩],
      beansById := [("b", 0)] } 0
    ⟨"b", "n", "bean b", Ty.base "T" ["M"], none,
      [Ty.iface "I" ["M"], Ty.iface "J" ["N"]], .Default⟩
    [Ty.iface "I" ["M"]] (Ty.iface "J" ["N"]) []
    rfl rfl (by decide) rfl rfl
    (by intro u hu; simp at hu; rw [hu]; rfl) (by rfl)
    (by simp) (by intro k; simp [nameLookup])
  exact ⟨h.1, h.2.2.1⟩


/-! ### Building the identity index -/

/-- The association list `registerBeans` produces from a duplicate-free
registration list starting at position `i`. -/
def indexedIds : List BeanDefinition → Nat → List (String × Nat)
  | [], _ => []
  | b :: bs, i => (b.id, i) :: indexedIds bs (i + 1)

theorem idLookup_append_none {m1 : List (String × Nat)} {k : String}
    (h : idLookup m1 k = none) (m2 : List (String × Nat)) :
    idLookup (m1 ++ m2) k = idLookup m2 k := by
  induction m1 with
  | nil => simp
  | cons kv rest ih =>
      obtain ⟨k2, v⟩ := kv
      by_cases hk : (k2 == k) = true
      · simp [idLookup, hk] at h
      · simp only [idLookup, hk, Bool.false_eq_true, if_false] at h
        simp only [List.cons_append, idLookup, hk, Bool.false_eq_true, if_false]
        exact ih h

theorem getAppendLen : ∀ (xs : List BeanDefinition) (d : BeanDefinition)
    (rest : List BeanDefinition), (xs ++ d :: rest).get? xs.length = some d := by
  intro xs
  induction xs with
  | nil => intro d rest; rfl
  | cons x xs ih => intro d rest; simpa using ih d rest

theorem getMem : ∀ (bs : List BeanDefinition) (n : Nat) (b : BeanDefinition),
    bs.get? n = some b → b ∈ bs := by
  intro bs
  induction bs with
  | nil => intro n b h; cases n <;> simp at h
  | cons x xs ih =>
      intro n b h
      cases n with
      | zero => simp at h; simp [h]
      | succ m =>
          exact List.mem_cons_of_mem x (ih m b h)

theorem indexedIds_mem : ∀ (bs : List BeanDefinition) (i n : Nat)
    (b : BeanDefinition), bs.get? n = some b →
    (b.id, i + n) ∈ indexedIds bs i := by
  intro bs
  induction bs with
  | nil => intro i n b h; cases n <;> simp at h
  | cons x xs ih =>
      intro i n b h
      cases n with
      | zero =>
          simp at h
          simp [indexedIds, h]
      | succ m =>
          have := ih (i + 1) m b h
          simp only [indexedIds]
          refine List.mem_cons_of_mem _ ?_
          have harith : i + 1 + m = i + (m + 1) := by omega
          rwa [harith] at this

theorem idLookup_indexedIds :
    ∀ (bs : List BeanDefinition) (i m : Nat) (d : BeanDefinition),
      List.Pairwise (fun x y : BeanDefinition => x.id ≠ y.id) bs →
      bs.get? m = some d →
      idLookup (indexedIds bs i) d.id = some (i + m) := by
  intro bs
  induction bs with
  | nil => intro i m d _ h; cases m <;> simp at h
  | cons x xs ih =>
      intro i m d hp h
      cases m with
      | zero =>
          simp at h
          subst h
          simp [indexedIds, idLookup]
      | succ n =>
          have hmem : d ∈ xs := getMem xs n d h
          have hne : x.id ≠ d.id := (List.pairwise_cons.mp hp).1 d hmem
          have hbeq : (x.id == d.id) = false := by
            simp [hne]
          simp only [indexedIds, idLookup, hbeq, Bool.false_eq_true, if_false]
          have := ih (i + 1) n d (List.pairwise_cons.mp hp).2 h
          rw [this]
          congr 1
          omega

theorem registerBeansAux_ok :
    ∀ (bs : List BeanDefinition) (c : Container) (i : Nat),
      (∀ b ∈ bs, idLookup c.beansById b.id = none) →
      List.Pairwise (fun x y : BeanDefinition => x.id ≠ y.id) bs →
      registerBeansAux c i bs =
        ({ c with beansById := c.beansById ++ indexedIds bs i }, none) := by
  intro bs
  induction bs with
  | nil => intro c i _ _; simp [registerBeansAux, indexedIds]
  | cons b rest ih =>
      intro c i hnone hp
      have hb : idLookup c.beansById b.id = none := hnone b (by simp)
      simp only [registerBeansAux, hb]
      have hstep := ih { c with beansById := c.beansById ++ [(b.id, i)] } (i + 1)
        (by
          intro b2 hb2
          simp only
          rw [idLookup_append_none (hnone b2 (by simp [hb2])) [(b.id, i)]]
          have hne : b.id ≠ b2.id := (List.pairwise_cons.mp hp).1 b2 hb2
          simp [idLookup, hne])
        (List.pairwise_cons.mp hp).2
      rw [hstep]
      simp [indexedIds, List.append_assoc]

theorem registerBeansAux_append :
    ∀ (us vs : List BeanDefinition) (c : Container) (i : Nat),
      registerBeansAux c i (us ++ vs) =
        (match registerBeansAux c i us with
         | (c2, some e) => (c2, some e)
         | (c2, none) => registerBeansAux c2 (i + us.length) vs) := by
  intro us
  induction us with
  | nil => intro vs c i; simp [registerBeansAux]
  | cons b rest ih =>
      intro vs c i
      simp only [List.cons_append, registerBeansAux]
      cases hl : idLookup c.beansById b.id with
      | some j =>
          dsimp only
          cases hg : c.beans.get? j with
          | some d => rfl
          | none => rfl
      | none =>
          simp only [List.append_eq]
          rw [ih vs { c with beansById := c.beansById ++ [(b.id, i)] } (i + 1)]
          have harith : i + 1 + rest.length = i + (rest.length + 1) := by omega
          rw [harith]
          rfl

/-- C3: building the identity index at the start of refresh panics on
the first bean whose identity already occurs, with a message carrying
both descriptions; with pairwise-distinct identities it succeeds and
places every registered descriptor into the identity index at its
registration position. -/
theorem claim3_identity_index (c : Container) (hempty : c.beansById = []) :
    (List.Pairwise (fun x y : BeanDefinition => x.id ≠ y.id) c.beans →
      (registerBeans c).2 = none ∧
      ∀ n b, c.beans.get? n = some b →
        (b.id, n) ∈ (registerBeans c).1.beansById) ∧
    (∀ xs d ys b zs,
      c.beans = xs ++ d :: (ys ++ b :: zs) →
      List.Pairwise (fun x y : BeanDefinition => x.id ≠ y.id) (xs ++ d :: ys) →
      b.id = d.id →
      (registerBeans c).2 = some ("found duplicate beans [" ++
        b.description ++ "] [" ++ d.description ++ "]")) := by
  constructor
  · intro hp
    unfold registerBeans
    rw [registerBeansAux_ok c.beans c 0
      (by intro b _; rw [hempty]; rfl) hp]
    refine ⟨rfl, ?_⟩
    intro n b hn
    simp only [hempty, List.nil_append]
    have := indexedIds_mem c.beans 0 n b hn
    simpa using this
  · intro xs d ys b zs hsplit hp hid
    unfold registerBeans
    have hassoc : c.beans = (xs ++ d :: ys) ++ (b :: zs) := by
      rw [hsplit]
      simp
    rw [hassoc, registerBeansAux_append (xs ++ d :: ys) (b :: zs) c 0]
    rw [registerBeansAux_ok (xs ++ d :: ys) c 0
      (by intro b2 _; rw [hempty]; rfl) hp]
    simp only
    have hlook : idLookup ([] ++ indexedIds (xs ++ d :: ys) 0) b.id =
        some xs.length := by
      rw [List.nil_append, hid]
      have := idLookup_indexedIds (xs ++ d :: ys) 0 xs.length d hp
        (getAppendLen xs d ys)
      simpa using this
    simp only [registerBeansAux, hempty, hlook]
    have hget : c.beans.get? xs.length = some d := by
      rw [hsplit]
      exact getAppendLen xs d (ys ++ b :: zs)
    rw [hget]

/-- C3 witness: two concrete beans sharing an identity are rejected
with both descriptions; two distinct identities are both indexed. -/
theorem claim3_identity_index_witness :
    (registerBeans { newContainer with
        beans := [⟨"x", "n1", "bean one", Ty.base "T1" [], none, [], .Default⟩,
          ⟨"x", "n2", "bean two", Ty.base "T2" [], none, [], .Default⟩] }).2 =
      some "found duplicate beans [bean two] [bean one]" ∧
    (registerBeans { newContainer with
        beans := [⟨"x", "n1", "bean one", Ty.base "T1" [], none, [], .Default⟩,
          ⟨"y", "n2", "bean two", Ty.base "T2" [], none, [], .Default⟩] }).2 =
      none := by
  constructor
  · exact (claim3_identity_index { newContainer with
        beans := [⟨"x", "n1", "bean one", Ty.base "T1" [], none, [], .Default⟩,
          ⟨"x", "n2", "bean two", Ty.base "T2" [], none, [], .Default⟩] } rfl).2
      [] ⟨"x", "n1", "bean one", Ty.base "T1" [], none, [], .Default⟩ []
      ⟨"x", "n2", "bean two", Ty.base "T2" [], none, [], .Default⟩ []
      rfl (by simp) rfl
  · exact ((claim3_identity_index { newContainer with
        beans := [⟨"x", "n1", "bean one", Ty.base "T1" [], none, [], .Default⟩,
          ⟨"y", "n2", "bean two", Ty.base "T2" [], none, [], .Default⟩] } rfl).1
      (by simp)).1


/-! ### Deleted beans are invisible -/

/-- C1: when a bean's condition evaluates false during resolution,
`resolveBean` succeeds, removes the bean from the identity index and
marks it `Deleted`; the type and name indices are untouched (the bean
contributes no index), the bean is not handed to the wiring pass, and
no subsequent `find` with any selector can return it.  (The hypothesis
says the identity index maps only the bean's own identity to its
pointer, as `registerBeans` guarantees.) -/
theorem claim1_condition_false_deletion (c : Container) (i : Nat)
    (b : BeanDefinition)
    (hb : c.beans.get? i = some b)
    (hst : b.status = .Default)
    (hcond : b.cond = some false)
    (hbid : ∀ k, (k, i) ∈ c.beansById → k = b.id) :
    (resolveBean c i).2 = none ∧
    (∃ b2, (resolveBean c i).1.beans.get? i = some b2 ∧
      b2.status = .Deleted) ∧
    (∀ k, (k, i) ∉ (resolveBean c i).1.beansById) ∧
    (resolveBean c i).1.beansByType = c.beansByType ∧
    (resolveBean c i).1.beansByName = c.beansByName ∧
    i ∉ wireBeans (resolveBean c i).1 ∧
    (∀ sel c2 res, find (resolveBean c i).1 sel = (c2, .ok res) →
      i ∉ res) := by
  have hstf := statusGe_of_default hst
  have hshape := resolveBean_condFalse hb hstf hcond
  rw [hshape]
  have hnotin : ∀ k, (k, i) ∉ idDelete c.beansById b.id := by
    intro k hk
    simp only [idDelete, List.mem_filter] at hk
    obtain ⟨hmem, hkeq⟩ := hk
    have : k = b.id := hbid k hmem
    rw [this] at hkeq
    simp at hkeq
  refine ⟨rfl, ?_, ?_, rfl, rfl, ?_, ?_⟩
  · refine ⟨{ b with status := .Deleted }, ?_, rfl⟩
    simp only [setStatus, modifyBean]
    rw [listModify_get_self, listModify_get_self, hb]
    rfl
  · intro k
    exact hnotin k
  · intro hmem
    simp only [wireBeans, setStatus, modifyBean, List.mem_map] at hmem
    obtain ⟨kv, hkv, hsnd⟩ := hmem
    have : (kv.1, i) ∈ idDelete c.beansById b.id := by
      rw [show (kv.1, i) = kv from by rw [← hsnd]]
      exact hkv
    exact hnotin kv.1 this
  · intro sel c2 res hfind hmem
    unfold find at hfind
    cases hguard : callAfterRefreshing (setStatus { setStatus c i .Resolving with
        beansById := idDelete c.beansById b.id } i .Deleted) with
    | some e =>
        rw [hguard] at hfind
        simp at hfind
    | none =>
        rw [hguard] at hfind
        have hsub : ∀ (fn : BeanDefinition → Bool),
            findAux fn (setStatus { setStatus c i .Resolving with
              beansById := idDelete c.beansById b.id } i .Deleted)
              (idDelete c.beansById b.id) = (c2, .ok res) → i ∉ res := by
          intro fn hf hin
          obtain ⟨k, hk⟩ := findAux_res_sub _ _ _ _ hf i hin
          exact hnotin k hk
        cases sel with
        | tag tn bn =>
            simp only at hfind
            exact hsub _ hfind hmem
        | ofType t0 =>
            simp only at hfind
            exact hsub _ hfind hmem

/-- C1 witness: a concrete bean whose condition is false disappears
from the identity index and is marked deleted. -/
theorem claim1_condition_false_deletion_witness :
    (resolveBean { newContainer with
        beans := [⟨"b", "n", "bean b", Ty.base "T" [], some false, [], .Default⟩],
        beansById := [("b", 0)] } 0).2 = none ∧
    (∀ k, (k, 0) ∉ (resolveBean { newContainer with
        beans := [⟨"b", "n", "bean b", Ty.base "T" [], some false, [], .Default⟩],
        beansById := [("b", 0)] } 0).1.beansById) := by
  have h := claim1_condition_false_deletion { newContainer with
      beans := [⟨"b", "n", "bean b", Ty.base "T" [], some false, [], .Default⟩],
      beansById := [("b", 0)] } 0
    ⟨"b", "n", "bean b", Ty.base "T" [], some false, [], .Default⟩
    rfl rfl rfl
    (by intro k hk; simp at hk; exact hk)
  exact ⟨h.1, h.2.2.1⟩


/-! ### Interface lookups require an export -/

/-- C9: a `find` query with an interface-type selector only returns
beans whose export set contains that interface: every returned bean
carries the interface in its export set, and a resolved bean whose
concrete type is assignable to the interface but which never exported
it is not returned. -/
theorem claim9_interface_find_requires_export (c c2 : Container) (t : Ty)
    (res : List Nat)
    (ht : t.isInterface = true)
    (hfind : find c (.ofType t) = (c2, .ok res)) :
    (∀ j ∈ res, ∃ b2, c2.beans.get? j = some b2 ∧
      tyMem t b2.exports = true) ∧
    (∀ j b, c.beans.get? j = some b → b.status = .Resolved →
      AssignableTo b.typ t = true → tyMem t b.exports = false →
      j ∉ res) := by
  cases t with
  | iface n ms =>
      unfold find at hfind
      cases hguard : callAfterRefreshing c with
      | some e =>
          rw [hguard] at hfind
          simp at hfind
      | none =>
          rw [hguard] at hfind
          simp only at hfind
          constructor
          · intro j hj
            refine findAux_exported ?_ c.beansById c c2 res hfind j hj
            intro b hb
            by_cases ha : AssignableTo b.typ (Ty.iface n ms) = true
            · simpa [ha, Ty.isInterface] using hb
            · rw [eq_false_of_ne_true ha] at hb
              simpa using hb
          · intro j b hbj hres hass hnot hmem
            refine ((findAux_skip_invariant ?_ c.beansById c c2 res hfind hbj).2) hmem
            simp [hass, Ty.isInterface, hnot]
  | strukt n ms fs => simp [Ty.isInterface] at ht
  | ptr e => simp [Ty.isInterface] at ht
  | base n ms => simp [Ty.isInterface] at ht

/-- C9 witness: a refreshed container with a resolved bean whose type
implements the interface `I` without exporting it; looking `I` up
returns nothing, and the exclusion theorem applies to the bean. -/
theorem claim9_interface_find_requires_export_witness :
    find { newContainer with
        state := .Refreshed,
        beans := [⟨"b", "n", "bean b", Ty.base "T" ["M"], none, [], .Resolved⟩],
        beansById := [("b", 0)] } (.ofType (Ty.iface "I" ["M"])) =
      ({ newContainer with
        state := .Refreshed,
        beans := [⟨"b", "n", "bean b", Ty.base "T" ["M"], none, [], .Resolved⟩],
        beansById := [("b", 0)] }, .ok []) ∧
    (0 : Nat) ∉ ([] : List Nat) := by
  refine ⟨by rfl, ?_⟩
  exact (claim9_interface_find_requires_export
    { newContainer with
      state := .Refreshed,
      beans := [⟨"b", "n", "bean b", Ty.base "T" ["M"], none, [], .Resolved⟩],
      beansById := [("b", 0)] }
    { newContainer with
      state := .Refreshed,
      beans := [⟨"b", "n", "bean b", Ty.base "T" ["M"], none, [], .Resolved⟩],
      beansById := [("b", 0)] }
    (Ty.iface "I" ["M"]) [] rfl (by rfl)).2 0
    ⟨"b", "n", "bean b", Ty.base "T" ["M"], none, [], .Resolved⟩
    rfl rfl (by rfl) (by rfl)

end Gs
